import Mathlib

/-!
Verification development for the PG-Strom T-tree columnar cache (tcache.c)
and its shared-memory substrate (main.c / shmem.c).

The C data structures are shallowly embedded as follows.  A cached row is a
record of its item pointer (`t_self`: block number and offset number), the
raw `xmax` field of its copied tuple header, and an abstract payload `val`
standing for the user-column data that every copy/move routine transfers in
lockstep with the system columns.  A `tcache_column_store` keeps its rows as
a list in array order together with the `blkno_min` / `blkno_max` /
`njunks` / `is_sorted` bookkeeping fields.  Machine integers are modelled as
`Nat` (block numbers, offsets and transaction ids are unsigned and no
arithmetic below ever wraps).
-/

/-- Block/offset pair of a PostgreSQL item pointer (`ItemPointerData`). -/
structure ItemPtr where
  blk : Nat
  off : Nat
deriving DecidableEq, Repr

/-- Strict lexicographic order on item pointers, after `ItemPointerCompare`
(compares block numbers first, then offset numbers). -/
def ipLt (a b : ItemPtr) : Bool :=
  a.blk < b.blk || (a.blk == b.blk && a.off < b.off)

/-- Test `ItemPointerCompare(a, b) >= 0`, i.e. `a` is not below `b`. -/
def ipGe (a b : ItemPtr) : Bool :=
  !ipLt a b

/-- One cached row of a column store: its item pointer, the raw `xmax` of the
copied `HeapTupleHeaderData`, and an abstract payload standing for the user
columns (null bitmap and value arrays), which all copy routines move in
lockstep with the system columns. -/
structure CacheRow where
  ctid : ItemPtr
  xmax : Nat
  val : Nat
deriving DecidableEq, Repr

/-- Model of `tcache_column_store`: the rows in array order plus the
bookkeeping fields read and written by the cache routines.  `nrows` of the C
structure is `rows.length`. -/
structure TCacheColumnStore where
  rows : List CacheRow
  blkno_min : Nat
  blkno_max : Nat
  njunks : Nat
  is_sorted : Bool
deriving DecidableEq, Repr

/-- PostgreSQL's `FirstNormalTransactionId` (access/transam.h): transaction
ids below 3 are the special ids Invalid/Bootstrap/Frozen. -/
def FirstNormalTransactionId : Nat := 3

/-- Row survives compaction: `tcache_compaction_tcnode` skips a row exactly
when `HeapTupleHeaderGetRawXmax` is below `FirstNormalTransactionId`
(the "vacuumed" tombstone marker). -/
def rowKept (r : CacheRow) : Bool :=
  !(r.xmax < FirstNormalTransactionId)

/-- Chunk invariant of the spec's data model: `blkno_min` and `blkno_max`
bound the storage block of every contained row. -/
def blkRangeOk (tcs : TCacheColumnStore) : Prop :=
  ∀ r ∈ tcs.rows, tcs.blkno_min ≤ r.ctid.blk ∧ r.ctid.blk ≤ tcs.blkno_max

instance (tcs : TCacheColumnStore) : Decidable (blkRangeOk tcs) := by
  unfold blkRangeOk; infer_instance

/-- Model of `tcache_compaction_tcnode` (tcache.c): builds a fresh chunk
holding, in order, exactly the rows whose `xmax` is not below
`FirstNormalTransactionId`; `blkno_min` / `blkno_max` start from the OLD
chunk's `blkno_max` / `blkno_min` respectively (the deliberate swap noted in
the source comment) and are folded over the surviving rows; `njunks` is
reset to zero and `is_sorted` is inherited. -/
def tcache_compaction_tcnode (tcs : TCacheColumnStore) : TCacheColumnStore :=
  let survivors := tcs.rows.filter rowKept
  { rows := survivors
    blkno_min := survivors.foldl
      (fun m r => if r.ctid.blk < m then r.ctid.blk else m) tcs.blkno_max
    blkno_max := survivors.foldl
      (fun m r => if m < r.ctid.blk then r.ctid.blk else m) tcs.blkno_min
    njunks := 0
    is_sorted := tcs.is_sorted }

example :
    tcache_compaction_tcnode
      { rows := [⟨⟨1, 1⟩, 0, 10⟩, ⟨⟨5, 2⟩, 0, 20⟩]
        blkno_min := 1, blkno_max := 5, njunks := 2, is_sorted := true }
      = { rows := [], blkno_min := 5, blkno_max := 1,
          njunks := 0, is_sorted := true } := by decide

example :
    tcache_compaction_tcnode
      { rows := [⟨⟨1, 1⟩, 0, 10⟩, ⟨⟨3, 2⟩, 7, 20⟩, ⟨⟨5, 1⟩, 9, 30⟩]
        blkno_min := 1, blkno_max := 5, njunks := 1, is_sorted := true }
      = { rows := [⟨⟨3, 2⟩, 7, 20⟩, ⟨⟨5, 1⟩, 9, 30⟩],
          blkno_min := 3, blkno_max := 5, njunks := 0, is_sorted := true } := by
  decide

/-- Array read of the row at index `i`; out-of-range reads (which in the C
code would be undefined behaviour) return a fixed default row. -/
def rowsGet (l : List CacheRow) (i : Nat) : CacheRow :=
  l.getD i ⟨⟨0, 0⟩, 0, 0⟩

/-- The row swap of `tcache_sort_tcnode_internal`: the C code `memswap`s the
ctids, the tuple headers, the null bitmaps and the value arrays of positions
`i` and `j` in lockstep, i.e. it exchanges the two whole rows. -/
def rowsSwap (l : List CacheRow) (i j : Nat) : List CacheRow :=
  (l.set i (rowsGet l j)).set j (rowsGet l i)

/-- The leftward scan `while (ItemPointerCompare(&ctids[li], pivot) < 0)
li++;` of `tcache_sort_tcnode_internal` (tcache.c:991-992).  `pivot` is a
POINTER to `ctids[pvIdx]`, so each comparison reads the CURRENT value at
that index; the scan itself does not modify the array, and the fuel (always
called with more than `l.length`) models the loop, which in C has no bounds
check. -/
def sortScanLeft (l : List CacheRow) (pvIdx : Nat) : Nat → Nat → Nat
  | 0, li => li
  | fuel + 1, li =>
    if ipLt (rowsGet l li).ctid (rowsGet l pvIdx).ctid then
      sortScanLeft l pvIdx fuel (li + 1)
    else li

/-- The rightward scan `while (ItemPointerCompare(&ctids[ri], pivot) > 0)
ri--;` (tcache.c:993-994); `ri` is an `int` in C and could run below zero
(reading out of bounds, undefined behaviour) — the model truncates at 0. -/
def sortScanRight (l : List CacheRow) (pvIdx : Nat) : Nat → Nat → Nat
  | 0, ri => ri
  | fuel + 1, ri =>
    if ipLt (rowsGet l pvIdx).ctid (rowsGet l ri).ctid then
      sortScanRight l pvIdx fuel (ri - 1)
    else ri

/-- The partition loop `while (li < ri) { scan; scan; if (li < ri) { swap;
li++; ri--; } }` of `tcache_sort_tcnode_internal` (tcache.c:989-1030).  The
pivot stays the fixed index `pvIdx = (left + right) / 2`; a swap that
writes to that index changes the pivot VALUE used by later comparisons,
because the C `pivot` is a pointer into the array.  Returns the array and
the final `li` / `ri`. -/
def sortPartition (pvIdx : Nat) : Nat → List CacheRow → Nat → Nat →
    List CacheRow × Nat × Nat
  | 0, l, li, ri => (l, li, ri)
  | fuel + 1, l, li, ri =>
    if li < ri then
      let li2 := sortScanLeft l pvIdx (l.length + 1) li
      let ri2 := sortScanRight l pvIdx (l.length + 1) ri
      if li2 < ri2 then
        sortPartition pvIdx fuel (rowsSwap l li2 ri2) (li2 + 1) (ri2 - 1)
      else (l, li2, ri2)
    else (l, li, ri)

/-- Model of `tcache_sort_tcnode_internal` (tcache.c:978-1033): quicksort
with the pivot taken as a pointer to `ctids[(left + right) / 2]` and
recursion on `(left, li - 1)` and `(ri + 1, right)` with the loop's final
`li` / `ri`.  This algorithm does NOT sort all inputs: a crossing swap can
strand the element between the final `li - 1` and `ri + 1`, and a swap
hitting the pivot index changes the pivot value mid-partition.  `li - 1`
is `int` arithmetic in C (`-1` when `li = 0`, making the recursion range
empty) — the Nat truncation to 0 makes the same range empty via the
`left >= right` guard.  The fuel bounds the recursion depth; every call
below passes more than the array length. -/
def tcache_sort_tcnode_internal : Nat → List CacheRow → Nat → Nat →
    List CacheRow
  | 0, l, _, _ => l
  | fuel + 1, l, left, right =>
    if left ≥ right then l
    else
      let pvIdx := (left + right) / 2
      let res := sortPartition pvIdx (l.length + 1) l left right
      let l2 := tcache_sort_tcnode_internal fuel res.1 left (res.2.1 - 1)
      tcache_sort_tcnode_internal fuel l2 (res.2.2 + 1) right

/-- Effect of `tcache_sort_tcnode` on the row list: it runs
`tcache_sort_tcnode_internal(0, nrows - 1)` over the rows (the C code swaps
tuple headers, null bitmaps and value arrays in lockstep with the ctids, so
whole rows are reordered) and then sets `is_sorted = true` — even though
the algorithm fails to sort some inputs. -/
def sortRows (l : List CacheRow) : List CacheRow :=
  tcache_sort_tcnode_internal (l.length + 1) l 0 (l.length - 1)

example : sortRows [⟨⟨3, 1⟩, 5, 0⟩, ⟨⟨1, 2⟩, 5, 1⟩, ⟨⟨1, 1⟩, 5, 2⟩]
    = [⟨⟨1, 1⟩, 5, 2⟩, ⟨⟨1, 2⟩, 5, 1⟩, ⟨⟨3, 1⟩, 5, 0⟩] := by decide

example : sortRows [⟨⟨1, 1⟩, 5, 0⟩, ⟨⟨3, 2⟩, 6, 1⟩, ⟨⟨2, 1⟩, 7, 2⟩,
      ⟨⟨3, 1⟩, 8, 3⟩]
    = [⟨⟨1, 1⟩, 5, 0⟩, ⟨⟨3, 1⟩, 8, 3⟩, ⟨⟨2, 1⟩, 7, 2⟩, ⟨⟨3, 2⟩, 6, 1⟩] := by
  decide

/-- Model of `tcache_split_tcnode` (tcache.c).  Unless `is_sorted` already
holds, the chunk is first run through the in-place quicksort
(`tcache_sort_tcnode`, i.e. `sortRows` — which fails to sort some inputs),
and the result is treated as sorted.  Scanning from
the tail, every trailing row whose block number equals `blkno_max` is moved
into the new sibling chunk (`nmoved` rows); the original keeps the first
`nremain` rows.  The new chunk gets `njunks = 0`, `is_sorted = true` and its
`blkno_min` / `blkno_max` from its first and last ctid; the original keeps
its `blkno_min`, takes `blkno_max` from its new last ctid, and is then run
through `tcache_compaction_tcnode`.  Returns (original after split and
compaction, new sibling). -/
def tcache_split_tcnode (tcs : TCacheColumnStore) :
    TCacheColumnStore × TCacheColumnStore :=
  let rs := if tcs.is_sorted then tcs.rows else sortRows tcs.rows
  let moved := (rs.reverse.takeWhile (fun r => r.ctid.blk == tcs.blkno_max)).reverse
  let remain := (rs.reverse.dropWhile (fun r => r.ctid.blk == tcs.blkno_max)).reverse
  let tcsNew : TCacheColumnStore :=
    { rows := moved
      blkno_min := ((moved.head?).map (fun r => r.ctid.blk)).getD 0
      blkno_max := ((moved.getLast?).map (fun r => r.ctid.blk)).getD 0
      njunks := 0
      is_sorted := true }
  let tcsOld : TCacheColumnStore :=
    { rows := remain
      blkno_min := tcs.blkno_min
      blkno_max := ((remain.getLast?).map (fun r => r.ctid.blk)).getD 0
      njunks := tcs.njunks
      is_sorted := true }
  (tcache_compaction_tcnode tcsOld, tcsNew)

example :
    tcache_split_tcnode
      { rows := [⟨⟨1, 1⟩, 5, 0⟩, ⟨⟨1, 2⟩, 6, 1⟩, ⟨⟨2, 1⟩, 7, 2⟩, ⟨⟨2, 2⟩, 8, 3⟩]
        blkno_min := 1, blkno_max := 2, njunks := 0, is_sorted := true }
      = ({ rows := [⟨⟨1, 1⟩, 5, 0⟩, ⟨⟨1, 2⟩, 6, 1⟩],
           blkno_min := 1, blkno_max := 1, njunks := 0, is_sorted := true },
         { rows := [⟨⟨2, 1⟩, 7, 2⟩, ⟨⟨2, 2⟩, 8, 3⟩],
           blkno_min := 2, blkno_max := 2, njunks := 0, is_sorted := true }) := by
  decide

/-- Model of `do_try_merge_tcnode` (tcache.c).  `cap` is the startup-configured
per-chunk row capacity `NUM_ROWS_PER_COLSTORE` (its value lives in the missing
header pg_strom.h; the spec fixes it only as a process-wide tunable).  When the
parent (destination) and child (donor) chunks each hold fewer than `cap / 2`
rows and together fewer than `2 * cap / 3`, the donor's rows are appended to
the destination and the bookkeeping fields are combined; note the source sets
`blkno_min` with `Max`, not `Min`.  Returns `some` merged destination chunk on
success, `none` when the thresholds reject the merge. -/
def do_try_merge_tcnode (cap : Nat) (parent child : TCacheColumnStore) :
    Option TCacheColumnStore :=
  if parent.rows.length < cap / 2 && child.rows.length < cap / 2 &&
      parent.rows.length + child.rows.length < 2 * cap / 3 then
    some { rows := parent.rows ++ child.rows
           blkno_max := Nat.max parent.blkno_max child.blkno_max
           blkno_min := Nat.max parent.blkno_min child.blkno_min
           njunks := parent.njunks + child.njunks
           is_sorted := parent.is_sorted }
  else
    none

example :
    do_try_merge_tcnode 10
      { rows := [⟨⟨5, 1⟩, 5, 0⟩], blkno_min := 5, blkno_max := 5,
        njunks := 0, is_sorted := true }
      { rows := [⟨⟨1, 1⟩, 5, 1⟩], blkno_min := 1, blkno_max := 1,
        njunks := 0, is_sorted := true }
      = some { rows := [⟨⟨5, 1⟩, 5, 0⟩, ⟨⟨1, 1⟩, 5, 1⟩],
               blkno_min := 5, blkno_max := 5,
               njunks := 0, is_sorted := true } := by decide

/-- T-tree node: either a null child pointer or a node carrying its column
store chunk and two subtrees (`tcache_node` with its `left` / `right`
pointers; the per-node depths and spinlock play no role in the lookup). -/
inductive TNode where
  | nil : TNode
  | node (tcs : TCacheColumnStore) (l r : TNode) : TNode
deriving DecidableEq, Repr

/-- Null test on a child pointer. -/
def TNode.isNil : TNode → Bool
  | .nil => true
  | .node _ _ _ => false

/-- Model of `tcache_find_next_internal` (tcache.c): finds the least chunk
that can contain records at or above block `blkno`.  An empty chunk yields
nothing; when `blkno` exceeds the chunk's `blkno_max` the search moves to
the right child (nothing when there is none); when there is no left child or
`blkno` reaches `blkno_min` the node itself is the answer; otherwise the
left subtree is searched and this node is the fallback when it yields
nothing. -/
def tcache_find_next_internal : TNode → Nat → Option TNode
  | .nil, _ => none
  | .node tcs l r, blkno =>
    if tcs.rows.length = 0 then none
    else if tcs.blkno_max < blkno then
      if r.isNil then none else tcache_find_next_internal r blkno
    else if l.isNil || decide (tcs.blkno_min ≤ blkno) then some (.node tcs l r)
    else
      match tcache_find_next_internal l blkno with
      | some t => some t
      | none => some (.node tcs l r)

/-- Model of `tcache_find_prev_internal` (tcache.c), the mirror image: when
`blkno` is below the chunk's `blkno_min` the search moves to the left child
(nothing when there is none); when there is no right child or `blkno` is at
most `blkno_max` the node itself is the answer; otherwise the right subtree
is searched with this node as the fallback. -/
def tcache_find_prev_internal : TNode → Nat → Option TNode
  | .nil, _ => none
  | .node tcs l r, blkno =>
    if tcs.rows.length = 0 then none
    else if blkno < tcs.blkno_min then
      if l.isNil then none else tcache_find_prev_internal l blkno
    else if r.isNil || decide (blkno ≤ tcs.blkno_max) then some (.node tcs l r)
    else
      match tcache_find_prev_internal r blkno with
      | some t => some t
      | none => some (.node tcs l r)

example :
    tcache_find_next_internal
      (.node { rows := [⟨⟨5, 1⟩, 5, 0⟩], blkno_min := 5, blkno_max := 6,
               njunks := 0, is_sorted := true }
        (.node { rows := [⟨⟨1, 1⟩, 5, 1⟩], blkno_min := 1, blkno_max := 2,
                 njunks := 0, is_sorted := true } .nil .nil)
        .nil) 3
      = some (.node { rows := [⟨⟨5, 1⟩, 5, 0⟩], blkno_min := 5, blkno_max := 6,
                      njunks := 0, is_sorted := true }
          (.node { rows := [⟨⟨1, 1⟩, 5, 1⟩], blkno_min := 1, blkno_max := 2,
                   njunks := 0, is_sorted := true } .nil .nil)
          .nil) := by decide

/-- PostgreSQL's `MaxBlockNumber` (block.h): `0xFFFFFFFE`. -/
def MaxBlockNumber : Nat := 4294967294

/-- PostgreSQL's `MaxOffsetNumber` (off.h): `BLCKSZ / sizeof(ItemIdData)`
with the standard 8192-byte pages, i.e. 2048. -/
def MaxOffsetNumber : Nat := 2048

/-- Binary-search loop of `tcache_find_next_record` (tcache.c): narrows
`[i_min, i_max)` by halving, moving `i_max` down to the midpoint when the
midpoint's ctid compares `>=` the target and `i_min` past it otherwise.  The
fuel only drives structural recursion; `i_max - i_min` shrinks every round,
so fuel `i_max - i_min` suffices. -/
def bsearchGo : Nat → List ItemPtr → ItemPtr → Nat → Nat → Nat
  | 0, _, _, i_min, _ => i_min
  | fuel + 1, ctids, target, i_min, i_max =>
    if i_min < i_max then
      let i_mid := (i_min + i_max) / 2
      if ipGe (ctids.getD i_mid ⟨0, 0⟩) target then
        bsearchGo fuel ctids target i_min i_mid
      else
        bsearchGo fuel ctids target (i_mid + 1) i_max
    else i_min

/-- Sorted branch of `tcache_find_next_record`: binary search over the whole
ctid array; the found position is the answer when it lands inside the array,
else the index stays `-1`. -/
def find_next_record_sorted (ctids : List ItemPtr) (target : ItemPtr) : Int :=
  let n := ctids.length
  let i := bsearchGo n ctids target 0 n
  if i < n then (i : Int) else -1

/-- Unsorted branch of `tcache_find_next_record`: a linear scan that starts
`ip_cur` at `(MaxBlockNumber, MaxOffsetNumber)` and records the index of any
ctid that compares `>=` the target while strictly below the current
`ip_cur`. -/
def find_next_record_unsorted (ctids : List ItemPtr) (target : ItemPtr) : Int :=
  (ctids.foldl
    (fun (st : ItemPtr × Int × Nat) c =>
      if ipGe c target && ipLt c st.1 then (c, (st.2.2 : Int), st.2.2 + 1)
      else (st.1, st.2.1, st.2.2 + 1))
    (⟨MaxBlockNumber, MaxOffsetNumber⟩, -1, 0)).2.1

/-- Model of `tcache_find_next_record` (tcache.c): `-1` for an empty chunk or
a target block past `blkno_max`; otherwise the sorted (binary search) or
unsorted (linear scan) branch over the chunk's ctids. -/
def tcache_find_next_record (tcs : TCacheColumnStore) (target : ItemPtr) : Int :=
  let ctids := tcs.rows.map (fun r => r.ctid)
  if tcs.rows.length = 0 then -1
  else if tcs.blkno_max < target.blk then -1
  else if tcs.is_sorted then find_next_record_sorted ctids target
  else find_next_record_unsorted ctids target

/-- Result both branches are meant to compute (the spec's wording): the index
of the first — on a non-decreasing array, the smallest — ctid comparing `>=`
the target, or `-1` when no such entry exists. -/
def firstGeIdx (ctids : List ItemPtr) (target : ItemPtr) : Int :=
  match ctids.findIdx? (fun c => ipGe c target) with
  | some i => (i : Int)
  | none => -1

example : find_next_record_sorted [⟨1, 1⟩, ⟨1, 3⟩, ⟨2, 1⟩] ⟨1, 2⟩ = 1 := by decide

example : find_next_record_unsorted [⟨1, 1⟩, ⟨1, 3⟩, ⟨2, 1⟩] ⟨1, 2⟩ = 1 := by decide

example : find_next_record_sorted [⟨1, 1⟩] ⟨2, 1⟩ = -1 := by decide

/-- PostgreSQL's `MAXIMUM_ALIGNOF` on the usual 64-bit builds. -/
def MAXIMUM_ALIGNOF : Nat := 8

/-- PostgreSQL's `MAXALIGN`: round up to a multiple of `MAXIMUM_ALIGNOF`. -/
def MAXALIGN (n : Nat) : Nat :=
  ((n + MAXIMUM_ALIGNOF - 1) / MAXIMUM_ALIGNOF) * MAXIMUM_ALIGNOF

/-- Model of `tcache_toastbuf` bookkeeping: allocated length, bytes used
(both measured from the buffer head, as in the C code) and junk bytes. -/
structure ToastBuf where
  tbuf_length : Nat
  tbuf_usage : Nat
  tbuf_junk : Nat
deriving DecidableEq, Repr

/-- Replacement step of the varlena path of `do_insert_tuple` (tcache.c): the
toast buffer is replaced by a double-sized duplicate that preserves the used
prefix exactly when `tbuf_usage + MAXALIGN(vsize) < tbuf_length` (the new
buffer comes from `tcache_create_toast_buffer(2 * tbuf_length)`, which
allocates at least the requested size; the model uses the requested size). -/
def do_insert_varlena_grow (tbuf : ToastBuf) (vsize : Nat) : ToastBuf :=
  if tbuf.tbuf_usage + MAXALIGN vsize < tbuf.tbuf_length then
    { tbuf_length := 2 * tbuf.tbuf_length
      tbuf_usage := tbuf.tbuf_usage
      tbuf_junk := tbuf.tbuf_junk }
  else tbuf

/-- Varlena store step of `do_insert_tuple`: after the (possible) replacement
the value is copied at `tbuf_usage` and the usage advances by the aligned
size.  Returns the updated buffer and the offset the value was stored at. -/
def do_insert_varlena (tbuf : ToastBuf) (vsize : Nat) : ToastBuf × Nat :=
  let t := do_insert_varlena_grow tbuf vsize
  ({ tbuf_length := t.tbuf_length
     tbuf_usage := t.tbuf_usage + MAXALIGN vsize
     tbuf_junk := t.tbuf_junk }, t.tbuf_usage)

/-- The `Assert(tbuf->tbuf_usage + MAXALIGN(vsize) < tbuf->tbuf_length)`
placed in `do_insert_tuple` right before the copy, evaluated on the buffer
the copy actually uses. -/
def do_insert_varlena_assert_ok (tbuf : ToastBuf) (vsize : Nat) : Prop :=
  (do_insert_varlena_grow tbuf vsize).tbuf_usage + MAXALIGN vsize <
    (do_insert_varlena_grow tbuf vsize).tbuf_length

instance (tbuf : ToastBuf) (vsize : Nat) :
    Decidable (do_insert_varlena_assert_ok tbuf vsize) := by
  unfold do_insert_varlena_assert_ok; infer_instance

/-- Per-value destination step of `tcache_copy_cs_varlena` (tcache.c): the
same test `tbuf_usage + MAXALIGN(vsize) < tbuf_length` triggers replacement
by a duplicate of twice the length (via `tcache_duplicate_toast_buffer`),
then the value is copied at `tbuf_usage`.  Returns the updated destination
buffer and the stored position `vpos`. -/
def tcache_copy_cs_varlena_step (tbuf_dst : ToastBuf) (vsize : Nat) :
    ToastBuf × Nat :=
  let t :=
    if tbuf_dst.tbuf_usage + MAXALIGN vsize < tbuf_dst.tbuf_length then
      { tbuf_length := 2 * tbuf_dst.tbuf_length
        tbuf_usage := tbuf_dst.tbuf_usage
        tbuf_junk := tbuf_dst.tbuf_junk }
    else tbuf_dst
  ({ tbuf_length := t.tbuf_length
     tbuf_usage := t.tbuf_usage + MAXALIGN vsize
     tbuf_junk := t.tbuf_junk }, t.tbuf_usage)

example : do_insert_varlena ⟨64, 56, 0⟩ 12 = (⟨64, 72, 0⟩, 56) := by decide

example : do_insert_varlena_grow ⟨1024, 16, 0⟩ 12 = ⟨2048, 16, 0⟩ := by decide

/-- States of a cache head (`tc_head->state`). -/
inductive TCacheState where
  | NOT_BUILT : TCacheState
  | NOW_BUILD : TCacheState
  | READY : TCacheState
deriving DecidableEq, Repr

/-- Model of `tcache_end_scan` (tcache.c) acting on the head state: given
whether the heap scan is still open (a build aborted partway) it releases
every tree node (`tcache_free_node_recurse`) but leaves the state field
untouched; with the scan closed, a state of `NOW_BUILD` advances to `READY`
and anything else stays.  Returns (state afterwards, whether the nodes were
released). -/
def tcache_end_scan (heapscan_open : Bool) (st : TCacheState) :
    TCacheState × Bool :=
  if heapscan_open then (st, true)
  else if st = TCacheState.NOW_BUILD then (TCacheState.READY, false)
  else (st, false)

/-- Model of `tcache_rescan` (tcache.c) acting on the head state: under
`NOW_BUILD` it releases every tree node but leaves the state field as it is;
otherwise it changes nothing.  Returns (state afterwards, whether the nodes
were released). -/
def tcache_rescan (st : TCacheState) : TCacheState × Bool :=
  if st = TCacheState.NOW_BUILD then (st, true) else (st, false)

/-- Byte offset of the payload `data[]` member inside `ShmemBlock` (shmem.c):
`magic` (4, padded), `size` (8), two 16-byte `dlist_node`s, `pid` (4,
padded), `owner` (8) on an LP64 build. -/
def shmemBlockDataOffset : Nat := 64

/-- Required block size computed by `pgstrom_shmem_alloc` (shmem.c):
`MAXALIGN(offsetof(ShmemBlock, data) + MAXALIGN(size) + sizeof(uint32))`,
the header plus aligned payload plus the overrun marker. -/
def shmem_required (size : Nat) : Nat :=
  MAXALIGN (shmemBlockDataOffset + MAXALIGN size + 4)

/-- Outcome of the free-list walk in `pgstrom_shmem_alloc` (shmem.c). -/
inductive ShmemAllocResult where
  | null : ShmemAllocResult
  | fit (idx : Nat) (split : Bool) : ShmemAllocResult
  | bogus (idx : Nat) : ShmemAllocResult
deriving DecidableEq, Repr

/-- Free-list walk of `pgstrom_shmem_alloc` (shmem.c) over the list of free
block sizes.  The loop variable `block` is overwritten by every visited
entry, so on an empty list the function returns NULL (`null`); on the first
entry of size `>= required` it stops — consuming the whole block when the
size is under `required + 4096` and splitting off the remainder otherwise
(`fit`); but when every entry is too small the loop ends with `block` still
pointing at the LAST visited free block, and the trailing `if (block)` then
stamps and returns that block (`bogus`). -/
def shmem_alloc_scan (required : Nat) : List Nat → Nat → ShmemAllocResult
  | [], _ => ShmemAllocResult.null
  | sz :: rest, i =>
    if sz < required then
      match rest with
      | [] => ShmemAllocResult.bogus i
      | _ :: _ => shmem_alloc_scan required rest (i + 1)
    else ShmemAllocResult.fit i (decide (required + 4096 ≤ sz))

/-- Model of `pgstrom_shmem_alloc` (shmem.c): walk the free list (given as
the list of free block sizes in list order) for `shmem_required size`. -/
def pgstrom_shmem_alloc_find (freelist : List Nat) (size : Nat) :
    ShmemAllocResult :=
  shmem_alloc_scan (shmem_required size) freelist 0

example : pgstrom_shmem_alloc_find [] 100 = ShmemAllocResult.null := by decide

example : pgstrom_shmem_alloc_find [8192] 100
    = ShmemAllocResult.fit 0 true := by decide

example : pgstrom_shmem_alloc_find [64, 200] 100
    = ShmemAllocResult.fit 1 false := by decide

/-- Model of `StromQueue` (shmem.c): the intrusive item list in queue order
(items identified by an abstract id) plus the one-way `is_shutdown` flag. -/
structure StromQueue where
  items : List Nat
  is_shutdown : Bool
deriving DecidableEq, Repr

/-- Condition-variable calls a queue operation performs while holding the
queue lock. -/
inductive CondEvent where
  | signal : CondEvent
  | broadcast : CondEvent
deriving DecidableEq, Repr

/-- Model of `pgstrom_queue_enqueue` (shmem.c): pushes the item at the tail
unless `is_shutdown` is set (then it fails with `false` and adds nothing);
either way it issues exactly one `pthread_cond_signal`.  Returns (queue
afterwards, success flag, condition-variable calls made). -/
def pgstrom_queue_enqueue (q : StromQueue) (chain : Nat) :
    StromQueue × Bool × List CondEvent :=
  if q.is_shutdown then (q, false, [CondEvent.signal])
  else ({ items := q.items ++ [chain], is_shutdown := q.is_shutdown },
        true, [CondEvent.signal])

/-- Model of `pgstrom_queue_try_dequeue` (shmem.c), which is also the state
effect of `pgstrom_queue_dequeue` on wake-up: pop the head item when the
list is not empty.  Neither dequeue form touches `is_shutdown` or calls the
condition variable. -/
def pgstrom_queue_try_dequeue (q : StromQueue) : StromQueue × Option Nat :=
  match q.items with
  | [] => (q, none)
  | x :: xs => ({ items := xs, is_shutdown := q.is_shutdown }, some x)

/-- Model of `pgstrom_queue_shutdown` (shmem.c): the function body locks the
mutex, sets `is_shutdown = true` and unlocks — it performs no
`pthread_cond_signal` and no `pthread_cond_broadcast`.  Returns (queue
afterwards, condition-variable calls made). -/
def pgstrom_queue_shutdown (q : StromQueue) : StromQueue × List CondEvent :=
  ({ items := q.items, is_shutdown := true }, [])

/-- The queue operations whose state effects are modelled. -/
inductive QueueOp where
  | enqueue (chain : Nat) : QueueOp
  | tryDequeue : QueueOp
  | shutdown : QueueOp
deriving DecidableEq, Repr

/-- State effect of one queue operation. -/
def applyQueueOp (q : StromQueue) : QueueOp → StromQueue
  | QueueOp.enqueue c => (pgstrom_queue_enqueue q c).1
  | QueueOp.tryDequeue => (pgstrom_queue_try_dequeue q).1
  | QueueOp.shutdown => (pgstrom_queue_shutdown q).1

/-- State effect of a sequence of queue operations, oldest first. -/
def applyQueueOps (q : StromQueue) (ops : List QueueOp) : StromQueue :=
  ops.foldl applyQueueOp q

example :
    pgstrom_queue_enqueue { items := [7], is_shutdown := true } 9
      = ({ items := [7], is_shutdown := true }, false, [CondEvent.signal]) := by
  decide

/-- A line pointer of a heap page (`ItemIdData`), as far as the vacuum
callbacks inspect it: `normal` carries `ItemIdGetOffset`, `redirect`
carries `ItemIdGetRedirect`. -/
inductive LineItem where
  | unused : LineItem
  | normal (off : Nat) : LineItem
  | redirect (lp : Nat) : LineItem
  | dead : LineItem
deriving DecidableEq, Repr

/-- Redirect chase `while (ItemIdIsRedirected(itemid)) itemid =
PageGetItemId(page, ItemIdGetRedirect(itemid))`; real pages have acyclic
redirect chains of length below `MaxOffsetNumber`, which bounds the fuel. -/
def resolveItemId : Nat → (Nat → LineItem) → LineItem → LineItem
  | 0, _, it => it
  | fuel + 1, page, it =>
    match it with
    | LineItem.redirect lp => resolveItemId fuel page (page lp)
    | _ => it

/-- One stored tuple of a row store, as far as vacuum touches it: its item
pointer `htup.t_self`. -/
structure RsTuple where
  t_self : ItemPtr
deriving DecidableEq, Repr

/-- Model of `tcache_row_store` for the vacuum path: the tuple slots in
index order (`none` models a slot whose `tupoffset[index]` is 0) and the
observed block range. -/
structure TCacheRowStore where
  tuples : List (Option RsTuple)
  blkno_min : Nat
  blkno_max : Nat
deriving DecidableEq, Repr

/-- Per-slot work of `do_vacuum_row_store` (tcache.c): slots that are empty
or belong to another block are skipped; a slot whose line pointer is no
longer normal has redirects chased — ending on a normal line pointer the
tuple's offset is updated to `ItemIdGetOffset`, anything else zeroes the
slot's `tupoffset` (removing the record). -/
def do_vacuum_rs_tuple (page : Nat → LineItem) (blknum : Nat)
    (t : Option RsTuple) : Option RsTuple :=
  match t with
  | none => none
  | some tup =>
    if tup.t_self.blk ≠ blknum then some tup
    else
      match page tup.t_self.off with
      | LineItem.normal _ => some tup
      | it =>
        match resolveItemId MaxOffsetNumber page it with
        | LineItem.normal off2 => some { t_self := ⟨tup.t_self.blk, off2⟩ }
        | _ => none

/-- Loop body of `do_vacuum_row_store` (tcache.c), without the entry guard:
every tuple slot is processed against the page. -/
def do_vacuum_row_store_body (trs : TCacheRowStore) (page : Nat → LineItem)
    (blknum : Nat) : TCacheRowStore :=
  { tuples := trs.tuples.map (do_vacuum_rs_tuple page blknum)
    blkno_min := trs.blkno_min
    blkno_max := trs.blkno_max }

/-- Model of `do_vacuum_row_store` (tcache.c): the guard reads
`if (blknum < trs->blkno_min || trs->blkno_max > blknum) return;` — note the
second disjunct compares `blkno_max > blknum`, not `blknum > blkno_max` — and
only when it falls through is the loop body run. -/
def do_vacuum_row_store (trs : TCacheRowStore) (page : Nat → LineItem)
    (blknum : Nat) : TCacheRowStore :=
  if blknum < trs.blkno_min || trs.blkno_max > blknum then trs
  else do_vacuum_row_store_body trs page blknum

example :
    do_vacuum_row_store
      { tuples := [some ⟨⟨3, 1⟩⟩], blkno_min := 1, blkno_max := 5 }
      (fun _ => LineItem.dead) 3
      = { tuples := [some ⟨⟨3, 1⟩⟩], blkno_min := 1, blkno_max := 5 } := by
  decide

example :
    do_vacuum_row_store_body
      { tuples := [some ⟨⟨3, 1⟩⟩], blkno_min := 1, blkno_max := 5 }
      (fun _ => LineItem.dead) 3
      = { tuples := [none], blkno_min := 1, blkno_max := 5 } := by
  decide

/-- Non-decreasing item-pointer order of a ctid array, the property the
`is_sorted` flag asserts (`Pairwise` form: no later entry compares below an
earlier one). -/
def ipSorted (l : List ItemPtr) : Prop :=
  l.Pairwise (fun a b => ipLt b a = false)

instance (l : List ItemPtr) : Decidable (ipSorted l) := by
  unfold ipSorted; exact List.instDecidablePairwise l

/-- Non-decreasing item-pointer order of a chunk's rows. -/
def ctidSorted (l : List CacheRow) : Prop :=
  l.Pairwise (fun a b => ipLt b.ctid a.ctid = false)

instance (l : List CacheRow) : Decidable (ctidSorted l) := by
  unfold ctidSorted; exact List.instDecidablePairwise l

/-- The `ip_cur` start value of the unsorted branch of
`tcache_find_next_record`: `ItemPointerSet(&ip_cur, MaxBlockNumber,
MaxOffsetNumber)`. -/
def ipSentinel : ItemPtr :=
  ⟨MaxBlockNumber, MaxOffsetNumber⟩

/-! Order facts about `ipLt`, used throughout. -/

theorem ipLt_iff (a b : ItemPtr) :
    ipLt a b = true ↔ (a.blk < b.blk ∨ (a.blk = b.blk ∧ a.off < b.off)) := by
  simp [ipLt]

theorem ipLt_false_iff (a b : ItemPtr) :
    ipLt a b = false ↔ (b.blk < a.blk ∨ (b.blk = a.blk ∧ b.off ≤ a.off)) := by
  simp only [ipLt, Bool.or_eq_false_iff, Bool.and_eq_false_iff,
    decide_eq_false_iff_not, beq_eq_false_iff_ne, ne_eq]
  omega

theorem ipLt_false_trans {a b c : ItemPtr}
    (hab : ipLt b a = false) (hbc : ipLt c b = false) : ipLt c a = false := by
  rw [ipLt_false_iff] at hab hbc ⊢
  omega

theorem ipLt_false_blk_le {a b : ItemPtr} (h : ipLt b a = false) :
    a.blk ≤ b.blk := by
  rw [ipLt_false_iff] at h
  omega

/-! Facts about the running-minimum / running-maximum folds used by
`tcache_compaction_tcnode`. -/

theorem foldMin_le_init (l : List CacheRow) (init : Nat) :
    l.foldl (fun m r => if r.ctid.blk < m then r.ctid.blk else m) init ≤ init := by
  induction l generalizing init with
  | nil => simp
  | cons r tl ih =>
    simp only [List.foldl_cons]
    refine le_trans (ih _) ?_
    split <;> omega

theorem foldMin_le_mem (l : List CacheRow) (init : Nat) :
    ∀ r ∈ l,
      l.foldl (fun m r => if r.ctid.blk < m then r.ctid.blk else m) init
        ≤ r.ctid.blk := by
  induction l generalizing init with
  | nil => simp
  | cons x tl ih =>
    intro r hr
    simp only [List.mem_cons] at hr
    simp only [List.foldl_cons]
    rcases hr with rfl | hr
    · refine le_trans (foldMin_le_init _ _) ?_
      split <;> omega
    · exact ih _ r hr

theorem foldMin_attained (l : List CacheRow) (init : Nat) :
    l.foldl (fun m r => if r.ctid.blk < m then r.ctid.blk else m) init = init ∨
      ∃ r ∈ l,
        l.foldl (fun m r => if r.ctid.blk < m then r.ctid.blk else m) init
          = r.ctid.blk := by
  induction l generalizing init with
  | nil => simp
  | cons x tl ih =>
    simp only [List.foldl_cons]
    by_cases hx : x.ctid.blk < init
    · simp only [if_pos hx]
      rcases ih x.ctid.blk with h | ⟨r, hr, h⟩
      · exact Or.inr ⟨x, List.mem_cons_self _ _, h⟩
      · exact Or.inr ⟨r, List.mem_cons_of_mem _ hr, h⟩
    · simp only [if_neg hx]
      rcases ih init with h | ⟨r, hr, h⟩
      · exact Or.inl h
      · exact Or.inr ⟨r, List.mem_cons_of_mem _ hr, h⟩

theorem foldMax_init_le (l : List CacheRow) (init : Nat) :
    init ≤ l.foldl (fun m r => if m < r.ctid.blk then r.ctid.blk else m) init := by
  induction l generalizing init with
  | nil => simp
  | cons r tl ih =>
    simp only [List.foldl_cons]
    refine le_trans ?_ (ih _)
    split <;> omega

theorem foldMax_mem_le (l : List CacheRow) (init : Nat) :
    ∀ r ∈ l,
      r.ctid.blk ≤
        l.foldl (fun m r => if m < r.ctid.blk then r.ctid.blk else m) init := by
  induction l generalizing init with
  | nil => simp
  | cons x tl ih =>
    intro r hr
    simp only [List.mem_cons] at hr
    simp only [List.foldl_cons]
    rcases hr with rfl | hr
    · refine le_trans ?_ (foldMax_init_le _ _)
      split <;> omega
    · exact ih _ r hr

theorem foldMax_attained (l : List CacheRow) (init : Nat) :
    l.foldl (fun m r => if m < r.ctid.blk then r.ctid.blk else m) init = init ∨
      ∃ r ∈ l,
        l.foldl (fun m r => if m < r.ctid.blk then r.ctid.blk else m) init
          = r.ctid.blk := by
  induction l generalizing init with
  | nil => simp
  | cons x tl ih =>
    simp only [List.foldl_cons]
    by_cases hx : init < x.ctid.blk
    · simp only [if_pos hx]
      rcases ih x.ctid.blk with h | ⟨r, hr, h⟩
      · exact Or.inr ⟨x, List.mem_cons_self _ _, h⟩
      · exact Or.inr ⟨r, List.mem_cons_of_mem _ hr, h⟩
    · simp only [if_neg hx]
      rcases ih init with h | ⟨r, hr, h⟩
      · exact Or.inl h
      · exact Or.inr ⟨r, List.mem_cons_of_mem _ hr, h⟩

theorem dropWhile_head_not {α : Type} (p : α → Bool) (l : List α) :
    ∀ e tl, l.dropWhile p = e :: tl → p e = false := by
  induction l with
  | nil => intro e tl h; simp [List.dropWhile] at h
  | cons x xs ih =>
    intro e tl h
    rw [List.dropWhile_cons] at h
    by_cases hx : p x = true
    · rw [if_pos hx] at h
      exact ih e tl h
    · rw [if_neg hx] at h
      cases h
      simpa using hx

theorem dropWhile_isSuffix {α : Type} (p : α → Bool) (l : List α) :
    (l.dropWhile p).IsSuffix l := by
  induction l with
  | nil => simp [List.dropWhile]
  | cons x xs ih =>
    rw [List.dropWhile_cons]
    by_cases hx : p x = true
    · rw [if_pos hx]
      exact ih.trans (List.suffix_cons x xs)
    · rw [if_neg hx]

/-- Structure of the tail scan of `tcache_split_tcnode` on a sorted row list
whose blocks are bounded by `B`: the list splits as `rm ++ mv` where `mv` is
exactly the rows of block `B` and every row of `rm` has a strictly smaller
block. -/
theorem tail_run_split (l : List CacheRow) (B : Nat)
    (hs : ctidSorted l) (hble : ∀ r ∈ l, r.ctid.blk ≤ B) :
    (l.reverse.dropWhile (fun r => r.ctid.blk == B)).reverse ++
      (l.reverse.takeWhile (fun r => r.ctid.blk == B)).reverse = l ∧
    (∀ r ∈ (l.reverse.takeWhile (fun r => r.ctid.blk == B)).reverse,
      r.ctid.blk = B) ∧
    (∀ r ∈ (l.reverse.dropWhile (fun r => r.ctid.blk == B)).reverse,
      r.ctid.blk < B) ∧
    (l.reverse.takeWhile (fun r => r.ctid.blk == B)).reverse
      = l.filter (fun r => r.ctid.blk == B) ∧
    (l.reverse.dropWhile (fun r => r.ctid.blk == B)).reverse
      = l.filter (fun r => !(r.ctid.blk == B)) := by
  set P : CacheRow → Bool := fun r => r.ctid.blk == B with hP
  have hsplit : (l.reverse.dropWhile P).reverse ++ (l.reverse.takeWhile P).reverse
      = l := by
    have := List.takeWhile_append_dropWhile (p := P) (l := l.reverse)
    calc (l.reverse.dropWhile P).reverse ++ (l.reverse.takeWhile P).reverse
        = (l.reverse.takeWhile P ++ l.reverse.dropWhile P).reverse := by
          rw [List.reverse_append]
      _ = l.reverse.reverse := by rw [this]
      _ = l := List.reverse_reverse l
  have hmv : ∀ r ∈ (l.reverse.takeWhile P).reverse, r.ctid.blk = B := by
    intro r hr
    rw [List.mem_reverse] at hr
    have := List.mem_takeWhile_imp hr
    simpa [hP] using this
  have hrm : ∀ r ∈ (l.reverse.dropWhile P).reverse, r.ctid.blk < B := by
    intro r hr
    rw [List.mem_reverse] at hr
    have hrev : l.reverse.Pairwise (fun a b => ipLt a.ctid b.ctid = false) := by
      rw [List.pairwise_reverse]
      exact hs
    have hd : (l.reverse.dropWhile P).Pairwise
        (fun a b => ipLt a.ctid b.ctid = false) :=
      hrev.sublist (dropWhile_isSuffix P l.reverse).sublist
    have hmem_l : ∀ x ∈ l.reverse.dropWhile P, x ∈ l := by
      intro x hx
      have := (dropWhile_isSuffix P l.reverse).sublist.mem hx
      simpa using this
    match hdw : l.reverse.dropWhile P with
    | [] => rw [hdw] at hr; simp at hr
    | e :: tl =>
      have hPe : P e = false := dropWhile_head_not P l.reverse e tl hdw
      have heB : e.ctid.blk ≠ B := by simpa [hP] using hPe
      have heL : e ∈ l := hmem_l e (by rw [hdw]; exact List.mem_cons_self _ _)
      have heLt : e.ctid.blk < B := lt_of_le_of_ne (hble e heL) heB
      rw [hdw] at hr hd
      rcases List.mem_cons.mp hr with rfl | hr
      · exact heLt
      · have := (List.pairwise_cons.mp hd).1 r hr
        exact lt_of_le_of_lt (ipLt_false_blk_le this) heLt
  refine ⟨hsplit, hmv, hrm, ?_, ?_⟩
  · have h1 : List.filter P ((l.reverse.dropWhile P).reverse ++
        (l.reverse.takeWhile P).reverse)
        = List.filter P l := by rw [hsplit]
    rw [List.filter_append] at h1
    have h2 : List.filter P ((l.reverse.dropWhile P).reverse) = [] := by
      rw [List.filter_eq_nil_iff]
      intro a ha
      have := hrm a ha
      simp [hP]
      omega
    have h3 : List.filter P ((l.reverse.takeWhile P).reverse)
        = (l.reverse.takeWhile P).reverse := by
      rw [List.filter_eq_self]
      intro a ha
      simp [hP, hmv a ha]
    rw [h2, h3] at h1
    simpa using h1
  · have h1 : List.filter (fun r => !P r) ((l.reverse.dropWhile P).reverse ++
        (l.reverse.takeWhile P).reverse)
        = List.filter (fun r => !P r) l := by rw [hsplit]
    rw [List.filter_append] at h1
    have h2 : List.filter (fun r => !P r) ((l.reverse.takeWhile P).reverse)
        = [] := by
      rw [List.filter_eq_nil_iff]
      intro a ha
      simp [hP, hmv a ha]
    have h3 : List.filter (fun r => !P r) ((l.reverse.dropWhile P).reverse)
        = (l.reverse.dropWhile P).reverse := by
      rw [List.filter_eq_self]
      intro a ha
      have := hrm a ha
      simp [hP]
      omega
    rw [h2, h3] at h1
    simpa using h1

/-- C1 (amended): for every chunk that is ALREADY in sorted order (the
`is_sorted` flag set and truthful — the in-place quicksort the unsorted
path would run, `tcache_sort_tcnode_internal`, fails to sort some inputs,
so no such guarantee exists for unsorted chunks), whose bookkeeping is
consistent (range invariant, `blkno_max` attained) and whose rows span
more than one storage block, `tcache_split_tcnode` moves exactly the rows
of the single highest block into the new sibling chunk, whose range is the
degenerate `[blkno_max, blkno_max]`; the original keeps the remaining rows
MINUS the tombstoned ones, which the trailing `tcache_compaction_tcnode`
call drops, and its resulting `blkno_max` stays strictly below the new
chunk's `blkno_min`.  When no row is tombstoned the two chunks partition
the original's row set exactly and their row counts add up to the original
row count.  (Full capacity is nowhere consumed by the function body, so it
is not assumed; the theorem covers every such chunk, full ones
included.) -/
theorem C1_split_tcnode_amended (tcs : TCacheColumnStore)
    (hinv : blkRangeOk tcs)
    (hflag : tcs.is_sorted = true)
    (hsorted : ctidSorted tcs.rows)
    (hmax : ∃ r ∈ tcs.rows, r.ctid.blk = tcs.blkno_max)
    (hspan : ∃ r ∈ tcs.rows, r.ctid.blk ≠ tcs.blkno_max) :
    ((tcache_split_tcnode tcs).2.rows).Perm
      (tcs.rows.filter (fun r => r.ctid.blk == tcs.blkno_max)) ∧
    ((tcache_split_tcnode tcs).1.rows).Perm
      ((tcs.rows.filter (fun r => !(r.ctid.blk == tcs.blkno_max))).filter
        rowKept) ∧
    (tcache_split_tcnode tcs).2.rows ≠ [] ∧
    (tcache_split_tcnode tcs).2.blkno_min = tcs.blkno_max ∧
    (tcache_split_tcnode tcs).2.blkno_max = tcs.blkno_max ∧
    (tcache_split_tcnode tcs).1.blkno_max < tcs.blkno_max ∧
    ((∀ r ∈ tcs.rows, rowKept r = true) →
      (((tcache_split_tcnode tcs).2.rows ++
          (tcache_split_tcnode tcs).1.rows).Perm tcs.rows ∧
        (tcache_split_tcnode tcs).1.rows.length +
          (tcache_split_tcnode tcs).2.rows.length = tcs.rows.length)) := by
  have hrs_perm : (if tcs.is_sorted then tcs.rows else sortRows tcs.rows).Perm
      tcs.rows := by
    rw [hflag]
    simp
  have hrs_sorted : ctidSorted (if tcs.is_sorted then tcs.rows
      else sortRows tcs.rows) := by
    rw [hflag]
    simpa using hsorted
  have hble : ∀ r ∈ (if tcs.is_sorted then tcs.rows else sortRows tcs.rows),
      r.ctid.blk ≤ tcs.blkno_max := by
    intro r hr
    exact (hinv r (hrs_perm.mem_iff.mp hr)).2
  obtain ⟨hsplit, hmv, hrm, hmv_eq, hrm_eq⟩ :=
    tail_run_split (if tcs.is_sorted then tcs.rows else sortRows tcs.rows)
      tcs.blkno_max hrs_sorted hble
  set rs := (if tcs.is_sorted then tcs.rows else sortRows tcs.rows) with hrs_def
  set mv := (rs.reverse.takeWhile (fun r => r.ctid.blk == tcs.blkno_max)).reverse
    with hmv_def
  set rm := (rs.reverse.dropWhile (fun r => r.ctid.blk == tcs.blkno_max)).reverse
    with hrm_def
  have hshape : tcache_split_tcnode tcs
      = (tcache_compaction_tcnode
          { rows := rm
            blkno_min := tcs.blkno_min
            blkno_max := ((rm.getLast?).map (fun r => r.ctid.blk)).getD 0
            njunks := tcs.njunks
            is_sorted := true },
         { rows := mv
           blkno_min := ((mv.head?).map (fun r => r.ctid.blk)).getD 0
           blkno_max := ((mv.getLast?).map (fun r => r.ctid.blk)).getD 0
           njunks := 0
           is_sorted := true }) := rfl
  -- the moved part is non-empty: some row attains blkno_max
  have hmv_ne : mv ≠ [] := by
    obtain ⟨r, hrl, hrB⟩ := hmax
    have hr_rs : r ∈ rs := hrs_perm.mem_iff.mpr hrl
    have : r ∈ rm ++ mv := by rw [hsplit]; exact hr_rs
    rcases List.mem_append.mp this with h | h
    · exact absurd hrB (Nat.ne_of_lt (hrm r h))
    · intro hnil
      rw [hnil] at h
      simp at h
  -- the remaining part is non-empty: some row misses blkno_max
  have hrm_ne : rm ≠ [] := by
    obtain ⟨r, hrl, hrB⟩ := hspan
    have hr_rs : r ∈ rs := hrs_perm.mem_iff.mpr hrl
    have : r ∈ rm ++ mv := by rw [hsplit]; exact hr_rs
    rcases List.mem_append.mp this with h | h
    · intro hnil
      rw [hnil] at h
      simp at h
    · exact absurd (hmv r h) hrB
  have hmin_lt : tcs.blkno_min < tcs.blkno_max := by
    obtain ⟨r, hrl, hrB⟩ := hspan
    have h1 := (hinv r hrl).1
    have h2 := (hinv r hrl).2
    omega
  refine ⟨?_, ?_, ?_, ?_, ?_, ?_, ?_⟩
  · rw [hshape]
    simpa [hmv_eq] using (hrs_perm.filter (fun r => r.ctid.blk == tcs.blkno_max))
  · rw [hshape]
    simp only [tcache_compaction_tcnode]
    simpa [hrm_eq] using
      ((hrs_perm.filter (fun r => !(r.ctid.blk == tcs.blkno_max))).filter rowKept)
  · rw [hshape]
    simpa using hmv_ne
  · rw [hshape]
    match hmvc : mv with
    | [] => exact absurd hmvc hmv_ne
    | h :: t =>
      have : h ∈ mv := by rw [hmvc]; exact List.mem_cons_self _ _
      simpa using hmv h this
  · rw [hshape]
    match hmvc : mv with
    | [] => exact absurd hmvc hmv_ne
    | h :: t =>
      have hg : (h :: t).getLast? = some ((h :: t).getLast (by simp)) :=
        List.getLast?_eq_getLast _ _
      have hmem : (h :: t).getLast (by simp) ∈ mv := by
        rw [hmvc]; exact List.getLast_mem _
      simp only [hg, Option.map_some, Option.getD_some]
      exact hmv _ hmem
  · rw [hshape]
    simp only [tcache_compaction_tcnode]
    rcases foldMax_attained (rm.filter rowKept) tcs.blkno_min with h | ⟨r, hr, h⟩
    · simpa [h] using hmin_lt
    · have : r ∈ rm := (List.mem_filter.mp hr).1
      have := hrm r this
      simpa [h] using this
  · intro hkeep
    have hkeep_rs : ∀ r ∈ rs, rowKept r = true := by
      intro r hr
      exact hkeep r (hrs_perm.mem_iff.mp hr)
    have hkeep_rm : ∀ r ∈ rm, rowKept r = true := by
      intro r hr
      have : r ∈ rm ++ mv := List.mem_append.mpr (Or.inl hr)
      rw [hsplit] at this
      exact hkeep_rs r this
    have hfilt : rm.filter rowKept = rm := List.filter_eq_self.mpr hkeep_rm
    have hperm : ((tcache_split_tcnode tcs).2.rows ++
        (tcache_split_tcnode tcs).1.rows).Perm tcs.rows := by
      rw [hshape]
      simp only [tcache_compaction_tcnode]
      have : (mv ++ rm.filter rowKept).Perm tcs.rows := by
        rw [hfilt]
        exact (List.perm_append_comm.trans (by rw [hsplit])).trans hrs_perm
      simpa using this
    refine ⟨hperm, ?_⟩
    have := hperm.length_eq
    simp only [List.length_append] at this
    omega

/-- C1 witness: the amended split theorem applied to a concrete sorted chunk
of four rows over blocks 1 and 2, with one tombstoned row in the remainder. -/
theorem C1_split_tcnode_amended_witness :
    ((tcache_split_tcnode
      { rows := [⟨⟨1, 1⟩, 0, 10⟩, ⟨⟨1, 2⟩, 6, 11⟩, ⟨⟨2, 1⟩, 7, 12⟩]
        blkno_min := 1, blkno_max := 2, njunks := 1,
        is_sorted := true }).2.rows).Perm
      (([⟨⟨1, 1⟩, 0, 10⟩, ⟨⟨1, 2⟩, 6, 11⟩, ⟨⟨2, 1⟩, 7, 12⟩] :
          List CacheRow).filter (fun r => r.ctid.blk == 2)) ∧
    ((tcache_split_tcnode
      { rows := [⟨⟨1, 1⟩, 0, 10⟩, ⟨⟨1, 2⟩, 6, 11⟩, ⟨⟨2, 1⟩, 7, 12⟩]
        blkno_min := 1, blkno_max := 2, njunks := 1,
        is_sorted := true }).1.rows).Perm
      ((([⟨⟨1, 1⟩, 0, 10⟩, ⟨⟨1, 2⟩, 6, 11⟩, ⟨⟨2, 1⟩, 7, 12⟩] :
          List CacheRow).filter (fun r => !(r.ctid.blk == 2))).filter
        rowKept) ∧
    (tcache_split_tcnode
      { rows := [⟨⟨1, 1⟩, 0, 10⟩, ⟨⟨1, 2⟩, 6, 11⟩, ⟨⟨2, 1⟩, 7, 12⟩]
        blkno_min := 1, blkno_max := 2, njunks := 1,
        is_sorted := true }).2.rows ≠ [] ∧
    (tcache_split_tcnode
      { rows := [⟨⟨1, 1⟩, 0, 10⟩, ⟨⟨1, 2⟩, 6, 11⟩, ⟨⟨2, 1⟩, 7, 12⟩]
        blkno_min := 1, blkno_max := 2, njunks := 1,
        is_sorted := true }).2.blkno_min = 2 ∧
    (tcache_split_tcnode
      { rows := [⟨⟨1, 1⟩, 0, 10⟩, ⟨⟨1, 2⟩, 6, 11⟩, ⟨⟨2, 1⟩, 7, 12⟩]
        blkno_min := 1, blkno_max := 2, njunks := 1,
        is_sorted := true }).2.blkno_max = 2 ∧
    (tcache_split_tcnode
      { rows := [⟨⟨1, 1⟩, 0, 10⟩, ⟨⟨1, 2⟩, 6, 11⟩, ⟨⟨2, 1⟩, 7, 12⟩]
        blkno_min := 1, blkno_max := 2, njunks := 1,
        is_sorted := true }).1.blkno_max < 2 ∧
    ((∀ r ∈ ([⟨⟨1, 1⟩, 0, 10⟩, ⟨⟨1, 2⟩, 6, 11⟩, ⟨⟨2, 1⟩, 7, 12⟩] :
        List CacheRow), rowKept r = true) →
      (((tcache_split_tcnode
        { rows := [⟨⟨1, 1⟩, 0, 10⟩, ⟨⟨1, 2⟩, 6, 11⟩, ⟨⟨2, 1⟩, 7, 12⟩]
          blkno_min := 1, blkno_max := 2, njunks := 1,
          is_sorted := true }).2.rows ++
          (tcache_split_tcnode
        { rows := [⟨⟨1, 1⟩, 0, 10⟩, ⟨⟨1, 2⟩, 6, 11⟩, ⟨⟨2, 1⟩, 7, 12⟩]
          blkno_min := 1, blkno_max := 2, njunks := 1,
          is_sorted := true }).1.rows).Perm
          [⟨⟨1, 1⟩, 0, 10⟩, ⟨⟨1, 2⟩, 6, 11⟩, ⟨⟨2, 1⟩, 7, 12⟩] ∧
        (tcache_split_tcnode
        { rows := [⟨⟨1, 1⟩, 0, 10⟩, ⟨⟨1, 2⟩, 6, 11⟩, ⟨⟨2, 1⟩, 7, 12⟩]
          blkno_min := 1, blkno_max := 2, njunks := 1,
          is_sorted := true }).1.rows.length +
          (tcache_split_tcnode
        { rows := [⟨⟨1, 1⟩, 0, 10⟩, ⟨⟨1, 2⟩, 6, 11⟩, ⟨⟨2, 1⟩, 7, 12⟩]
          blkno_min := 1, blkno_max := 2, njunks := 1,
          is_sorted := true }).2.rows.length = 3)) :=
  C1_split_tcnode_amended
    { rows := [⟨⟨1, 1⟩, 0, 10⟩, ⟨⟨1, 2⟩, 6, 11⟩, ⟨⟨2, 1⟩, 7, 12⟩]
      blkno_min := 1, blkno_max := 2, njunks := 1, is_sorted := true }
    (by decide) (by decide) (by decide) (by decide) (by decide)

/-- C1 counterexample, two independent failure modes of the claim as
stated.  First, tombstone drop: with the per-chunk row capacity (a startup
tunable in the spec; its constant lives in the missing header) configured
as 2, a full sorted chunk over blocks 1 and 2 with a tombstoned row yields
1 row in total across the two result chunks instead of 2 — the trailing
compaction drops the tombstoned row, so the combined row count does not
equal the original and the row set is not partitioned exactly.  Second,
the broken in-place sort: on the full unsorted chunk (capacity 4) with
ctids (1,1),(3,2),(2,1),(3,1), `tcache_sort_tcnode_internal` leaves the
array as (1,1),(3,1),(2,1),(3,2) — not sorted — so the split moves ONLY
the trailing row (3,2) instead of both block-3 rows; the block-3 row (3,1)
stays in the original, whose recomputed `blkno_max` is 3, equal to the new
chunk's `blkno_min` — the two ranges overlap instead of being
non-overlapping. -/
theorem C1_split_counterexample :
    ({ rows := [⟨⟨1, 1⟩, 0, 10⟩, ⟨⟨2, 1⟩, 5, 11⟩], blkno_min := 1,
       blkno_max := 2, njunks := 1,
       is_sorted := true } : TCacheColumnStore).rows.length = 2 ∧
    (tcache_split_tcnode
      { rows := [⟨⟨1, 1⟩, 0, 10⟩, ⟨⟨2, 1⟩, 5, 11⟩], blkno_min := 1,
        blkno_max := 2, njunks := 1, is_sorted := true }).1.rows.length +
      (tcache_split_tcnode
      { rows := [⟨⟨1, 1⟩, 0, 10⟩, ⟨⟨2, 1⟩, 5, 11⟩], blkno_min := 1,
        blkno_max := 2, njunks := 1, is_sorted := true }).2.rows.length
      = 1 ∧
    sortRows [⟨⟨1, 1⟩, 5, 0⟩, ⟨⟨3, 2⟩, 6, 1⟩, ⟨⟨2, 1⟩, 7, 2⟩, ⟨⟨3, 1⟩, 8, 3⟩]
      = [⟨⟨1, 1⟩, 5, 0⟩, ⟨⟨3, 1⟩, 8, 3⟩, ⟨⟨2, 1⟩, 7, 2⟩, ⟨⟨3, 2⟩, 6, 1⟩] ∧
    (tcache_split_tcnode
      ⟨[⟨⟨1, 1⟩, 5, 0⟩, ⟨⟨3, 2⟩, 6, 1⟩, ⟨⟨2, 1⟩, 7, 2⟩, ⟨⟨3, 1⟩, 8, 3⟩],
        1, 3, 0, false⟩).2.rows = [⟨⟨3, 2⟩, 6, 1⟩] ∧
    (tcache_split_tcnode
      ⟨[⟨⟨1, 1⟩, 5, 0⟩, ⟨⟨3, 2⟩, 6, 1⟩, ⟨⟨2, 1⟩, 7, 2⟩, ⟨⟨3, 1⟩, 8, 3⟩],
        1, 3, 0, false⟩).1.rows
      = [⟨⟨1, 1⟩, 5, 0⟩, ⟨⟨3, 1⟩, 8, 3⟩, ⟨⟨2, 1⟩, 7, 2⟩] ∧
    (tcache_split_tcnode
      ⟨[⟨⟨1, 1⟩, 5, 0⟩, ⟨⟨3, 2⟩, 6, 1⟩, ⟨⟨2, 1⟩, 7, 2⟩, ⟨⟨3, 1⟩, 8, 3⟩],
        1, 3, 0, false⟩).1.blkno_max
      = (tcache_split_tcnode
      ⟨[⟨⟨1, 1⟩, 5, 0⟩, ⟨⟨3, 2⟩, 6, 1⟩, ⟨⟨2, 1⟩, 7, 2⟩, ⟨⟨3, 1⟩, 8, 3⟩],
        1, 3, 0, false⟩).2.blkno_min := by
  decide

/-- C7 (amended): `tcache_compaction_tcnode` keeps, in original order,
exactly the rows whose `xmax` is not below `FirstNormalTransactionId` and
resets the junk counter; when at least one row survives, the new
`blkno_min` / `blkno_max` are the minimum / maximum block over the
survivors; when every row is tombstoned the result has zero rows and its
`blkno_min` / `blkno_max` are the ORIGINAL chunk's `blkno_max` /
`blkno_min` (swapped), which coincide only when the original range was
degenerate. -/
theorem C7_compaction_amended (tcs : TCacheColumnStore)
    (hinv : blkRangeOk tcs) :
    (tcache_compaction_tcnode tcs).rows = tcs.rows.filter rowKept ∧
    (tcache_compaction_tcnode tcs).njunks = 0 ∧
    (tcs.rows.filter rowKept ≠ [] →
      (∀ r ∈ (tcache_compaction_tcnode tcs).rows,
        (tcache_compaction_tcnode tcs).blkno_min ≤ r.ctid.blk ∧
          r.ctid.blk ≤ (tcache_compaction_tcnode tcs).blkno_max) ∧
      (∃ r ∈ (tcache_compaction_tcnode tcs).rows,
        r.ctid.blk = (tcache_compaction_tcnode tcs).blkno_min) ∧
      (∃ r ∈ (tcache_compaction_tcnode tcs).rows,
        r.ctid.blk = (tcache_compaction_tcnode tcs).blkno_max)) ∧
    (tcs.rows.filter rowKept = [] →
      (tcache_compaction_tcnode tcs).rows = [] ∧
      (tcache_compaction_tcnode tcs).blkno_min = tcs.blkno_max ∧
      (tcache_compaction_tcnode tcs).blkno_max = tcs.blkno_min) := by
  refine ⟨rfl, rfl, ?_, ?_⟩
  · intro hne
    obtain ⟨s, hs⟩ := List.exists_mem_of_ne_nil _ hne
    have hs_rows : s ∈ tcs.rows := (List.mem_filter.mp hs).1
    refine ⟨?_, ?_, ?_⟩
    · intro r hr
      exact ⟨foldMin_le_mem _ _ r hr, foldMax_mem_le _ _ r hr⟩
    · rcases foldMin_attained (tcs.rows.filter rowKept) tcs.blkno_max with
        h | ⟨r, hr, h⟩
      · refine ⟨s, hs, ?_⟩
        have h1 := foldMin_le_mem (tcs.rows.filter rowKept) tcs.blkno_max s hs
        have h2 := (hinv s hs_rows).2
        simp only [tcache_compaction_tcnode]
        omega
      · exact ⟨r, hr, h.symm⟩
    · rcases foldMax_attained (tcs.rows.filter rowKept) tcs.blkno_min with
        h | ⟨r, hr, h⟩
      · refine ⟨s, hs, ?_⟩
        have h1 := foldMax_mem_le (tcs.rows.filter rowKept) tcs.blkno_min s hs
        have h2 := (hinv s hs_rows).1
        simp only [tcache_compaction_tcnode]
        omega
      · exact ⟨r, hr, h.symm⟩
  · intro hnil
    refine ⟨hnil, ?_, ?_⟩ <;> simp [tcache_compaction_tcnode, hnil]

/-- C7 witness: the amended compaction theorem applied to a concrete chunk
with one tombstoned and two live rows. -/
theorem C7_compaction_amended_witness :
    (tcache_compaction_tcnode
      { rows := [⟨⟨1, 1⟩, 0, 10⟩, ⟨⟨3, 2⟩, 7, 20⟩, ⟨⟨5, 1⟩, 9, 30⟩]
        blkno_min := 1, blkno_max := 5, njunks := 1,
        is_sorted := true }).rows
      = ([⟨⟨1, 1⟩, 0, 10⟩, ⟨⟨3, 2⟩, 7, 20⟩, ⟨⟨5, 1⟩, 9, 30⟩] :
          List CacheRow).filter rowKept ∧
    (tcache_compaction_tcnode
      { rows := [⟨⟨1, 1⟩, 0, 10⟩, ⟨⟨3, 2⟩, 7, 20⟩, ⟨⟨5, 1⟩, 9, 30⟩]
        blkno_min := 1, blkno_max := 5, njunks := 1,
        is_sorted := true }).njunks = 0 ∧
    (([⟨⟨1, 1⟩, 0, 10⟩, ⟨⟨3, 2⟩, 7, 20⟩, ⟨⟨5, 1⟩, 9, 30⟩] :
        List CacheRow).filter rowKept ≠ [] →
      (∀ r ∈ (tcache_compaction_tcnode
        { rows := [⟨⟨1, 1⟩, 0, 10⟩, ⟨⟨3, 2⟩, 7, 20⟩, ⟨⟨5, 1⟩, 9, 30⟩]
          blkno_min := 1, blkno_max := 5, njunks := 1,
          is_sorted := true }).rows,
        (tcache_compaction_tcnode
        { rows := [⟨⟨1, 1⟩, 0, 10⟩, ⟨⟨3, 2⟩, 7, 20⟩, ⟨⟨5, 1⟩, 9, 30⟩]
          blkno_min := 1, blkno_max := 5, njunks := 1,
          is_sorted := true }).blkno_min ≤ r.ctid.blk ∧
          r.ctid.blk ≤ (tcache_compaction_tcnode
        { rows := [⟨⟨1, 1⟩, 0, 10⟩, ⟨⟨3, 2⟩, 7, 20⟩, ⟨⟨5, 1⟩, 9, 30⟩]
          blkno_min := 1, blkno_max := 5, njunks := 1,
          is_sorted := true }).blkno_max) ∧
      (∃ r ∈ (tcache_compaction_tcnode
        { rows := [⟨⟨1, 1⟩, 0, 10⟩, ⟨⟨3, 2⟩, 7, 20⟩, ⟨⟨5, 1⟩, 9, 30⟩]
          blkno_min := 1, blkno_max := 5, njunks := 1,
          is_sorted := true }).rows,
        r.ctid.blk = (tcache_compaction_tcnode
        { rows := [⟨⟨1, 1⟩, 0, 10⟩, ⟨⟨3, 2⟩, 7, 20⟩, ⟨⟨5, 1⟩, 9, 30⟩]
          blkno_min := 1, blkno_max := 5, njunks := 1,
          is_sorted := true }).blkno_min) ∧
      (∃ r ∈ (tcache_compaction_tcnode
        { rows := [⟨⟨1, 1⟩, 0, 10⟩, ⟨⟨3, 2⟩, 7, 20⟩, ⟨⟨5, 1⟩, 9, 30⟩]
          blkno_min := 1, blkno_max := 5, njunks := 1,
          is_sorted := true }).rows,
        r.ctid.blk = (tcache_compaction_tcnode
        { rows := [⟨⟨1, 1⟩, 0, 10⟩, ⟨⟨3, 2⟩, 7, 20⟩, ⟨⟨5, 1⟩, 9, 30⟩]
          blkno_min := 1, blkno_max := 5, njunks := 1,
          is_sorted := true }).blkno_max)) ∧
    (([⟨⟨1, 1⟩, 0, 10⟩, ⟨⟨3, 2⟩, 7, 20⟩, ⟨⟨5, 1⟩, 9, 30⟩] :
        List CacheRow).filter rowKept = [] →
      (tcache_compaction_tcnode
        { rows := [⟨⟨1, 1⟩, 0, 10⟩, ⟨⟨3, 2⟩, 7, 20⟩, ⟨⟨5, 1⟩, 9, 30⟩]
          blkno_min := 1, blkno_max := 5, njunks := 1,
          is_sorted := true }).rows = [] ∧
      (tcache_compaction_tcnode
        { rows := [⟨⟨1, 1⟩, 0, 10⟩, ⟨⟨3, 2⟩, 7, 20⟩, ⟨⟨5, 1⟩, 9, 30⟩]
          blkno_min := 1, blkno_max := 5, njunks := 1,
          is_sorted := true }).blkno_min = 5 ∧
      (tcache_compaction_tcnode
        { rows := [⟨⟨1, 1⟩, 0, 10⟩, ⟨⟨3, 2⟩, 7, 20⟩, ⟨⟨5, 1⟩, 9, 30⟩]
          blkno_min := 1, blkno_max := 5, njunks := 1,
          is_sorted := true }).blkno_max = 1) :=
  C7_compaction_amended
    { rows := [⟨⟨1, 1⟩, 0, 10⟩, ⟨⟨3, 2⟩, 7, 20⟩, ⟨⟨5, 1⟩, 9, 30⟩]
      blkno_min := 1, blkno_max := 5, njunks := 1, is_sorted := true }
    (by decide)

/-- C7 counterexample: a chunk spanning blocks 1..5 whose rows are all
tombstoned compacts to zero rows but with `blkno_min = 5` and
`blkno_max = 1` — the two fields are swapped, not equal, contradicting the
claim's `min_block == max_block` for the all-tombstoned case. -/
theorem C7_compaction_counterexample :
    (∀ r ∈ (⟨[⟨⟨1, 1⟩, 0, 10⟩, ⟨⟨5, 2⟩, 0, 20⟩], 1, 5, 2, true⟩ :
        TCacheColumnStore).rows, rowKept r = false) ∧
    (tcache_compaction_tcnode
      ⟨[⟨⟨1, 1⟩, 0, 10⟩, ⟨⟨5, 2⟩, 0, 20⟩], 1, 5, 2, true⟩).rows.length = 0 ∧
    (tcache_compaction_tcnode
      ⟨[⟨⟨1, 1⟩, 0, 10⟩, ⟨⟨5, 2⟩, 0, 20⟩], 1, 5, 2, true⟩).blkno_min ≠
      (tcache_compaction_tcnode
      ⟨[⟨⟨1, 1⟩, 0, 10⟩, ⟨⟨5, 2⟩, 0, 20⟩], 1, 5, 2, true⟩).blkno_max := by
  decide

/-- C2: `do_try_merge_tcnode` merges a destination chunk of one row on
block 5 with a donor of one row on block 1 (thresholds satisfied with
capacity 10: 1 < 5, 1 < 5, 2 < 6).  The source updates `blkno_min` with
`Max`, so the merged chunk reports `blkno_min = 5` while containing the
donor's row of block 1 — the spec's range invariant
`blkno_min <= every contained row's block` is violated, refuting the
claim's `blkno_min = Min` / invariant-preservation statement. -/
theorem C2_merge_blkno_min_bug :
    do_try_merge_tcnode 10
      ⟨[⟨⟨5, 1⟩, 5, 0⟩], 5, 5, 0, true⟩
      ⟨[⟨⟨1, 1⟩, 5, 1⟩], 1, 1, 0, true⟩
      = some ⟨[⟨⟨5, 1⟩, 5, 0⟩, ⟨⟨1, 1⟩, 5, 1⟩], 5, 5, 0, true⟩ ∧
    ¬ blkRangeOk ⟨[⟨⟨5, 1⟩, 5, 0⟩, ⟨⟨1, 1⟩, 5, 1⟩], 5, 5, 0, true⟩ ∧
    Nat.min 5 1 = 1 := by
  decide

/-- C4: aborting a build leaves the head state at `NOW_BUILD`, never
restoring `NOT_BUILT`: `tcache_end_scan` called with the heap scan still
open releases the partially built nodes but returns with the state
unchanged, and `tcache_rescan` under `NOW_BUILD` does the same — both
contradict the claim (and the `Assert(state == READY)` the next
`tcache_begin_scan` would then run into). -/
theorem C4_abort_leaves_NOW_BUILD :
    tcache_end_scan true TCacheState.NOW_BUILD
      = (TCacheState.NOW_BUILD, true) ∧
    tcache_rescan TCacheState.NOW_BUILD = (TCacheState.NOW_BUILD, true) ∧
    tcache_end_scan true TCacheState.NOW_BUILD ≠
      (TCacheState.NOT_BUILT, true) ∧
    tcache_rescan TCacheState.NOW_BUILD ≠ (TCacheState.NOT_BUILT, true) := by
  decide

/-- C5: the varlena path of `do_insert_tuple` tests
`tbuf_usage + MAXALIGN(vsize) < tbuf_length` — the INVERSE of "no room
left".  On a buffer of length 64 with 56 bytes used, storing a 12-byte
value (aligned: 16) does NOT replace the buffer, the no-overrun assertion
fails, and the copy runs past the buffer end (usage 72 > length 64); on a
buffer with ample room (length 1024, 16 used) the buffer IS replaced
although no growth is needed.  `tcache_copy_cs_varlena` repeats the same
inverted test. -/
theorem C5_toast_grow_inverted :
    do_insert_varlena_grow ⟨64, 56, 0⟩ 12 = ⟨64, 56, 0⟩ ∧
    ¬ do_insert_varlena_assert_ok ⟨64, 56, 0⟩ 12 ∧
    (do_insert_varlena ⟨64, 56, 0⟩ 12).1.tbuf_usage >
      (do_insert_varlena ⟨64, 56, 0⟩ 12).1.tbuf_length ∧
    do_insert_varlena_grow ⟨1024, 16, 0⟩ 12 ≠ ⟨1024, 16, 0⟩ ∧
    (tcache_copy_cs_varlena_step ⟨64, 56, 0⟩ 12).2 + 12 > 64 ∧
    (tcache_copy_cs_varlena_step ⟨64, 56, 0⟩ 12).1.tbuf_length = 64 := by
  decide

/-- C6: on a free list holding one 128-byte block, a request whose required
size is 1072 bytes fits nowhere, yet `pgstrom_shmem_alloc` does not return
NULL: the loop leaves `block` pointing at the last visited (too small, still
free-listed) block and the function stamps and returns it — refuting the
claim's "returns NULL iff no free block is large enough". -/
theorem C6_shmem_alloc_no_fit_not_null :
    pgstrom_shmem_alloc_find [128] 1000 = ShmemAllocResult.bogus 0 ∧
    pgstrom_shmem_alloc_find [128] 1000 ≠ ShmemAllocResult.null ∧
    128 < shmem_required 1000 ∧
    shmem_required 1000 = 1072 := by
  decide

/-- C10: the guard of `do_vacuum_row_store` reads
`blknum < blkno_min || blkno_max > blknum`, so a page lying strictly inside
the observed range `[1, 5]` (here block 3, holding a dead line pointer for a
cached tuple) is skipped — the row store is returned unchanged although the
claim requires the dead tuple's slot to be zeroed, as the guard-free loop
body indeed does. -/
theorem C10_vacuum_guard_inverted :
    do_vacuum_row_store
      ⟨[some ⟨⟨1, 1⟩⟩, some ⟨⟨3, 1⟩⟩, some ⟨⟨5, 1⟩⟩], 1, 5⟩
      (fun _ => LineItem.dead) 3
      = ⟨[some ⟨⟨1, 1⟩⟩, some ⟨⟨3, 1⟩⟩, some ⟨⟨5, 1⟩⟩], 1, 5⟩ ∧
    do_vacuum_row_store_body
      ⟨[some ⟨⟨1, 1⟩⟩, some ⟨⟨3, 1⟩⟩, some ⟨⟨5, 1⟩⟩], 1, 5⟩
      (fun _ => LineItem.dead) 3
      = ⟨[some ⟨⟨1, 1⟩⟩, none, some ⟨⟨5, 1⟩⟩], 1, 5⟩ ∧
    (1 : Nat) ≤ 3 ∧ (3 : Nat) ≤ 5 := by
  refine ⟨by decide, ?_, by decide, by decide⟩
  simp [do_vacuum_row_store_body, do_vacuum_rs_tuple, resolveItemId,
    MaxOffsetNumber]

/-- C3 counterexample: a root whose chunk covers blocks `[1, 2]` with no
right child, asked for block 5: the requested block exceeds `blkno_max` and
the right subtree yields nothing, yet `tcache_find_next_internal` returns
`none` — the node is NOT used as a fallback answer on the right descent,
refuting the claim's placement of the fallback. -/
theorem C3_find_next_counterexample :
    (2 : Nat) < 5 ∧
    (TNode.nil : TNode).isNil = true ∧
    tcache_find_next_internal
      (TNode.node ⟨[⟨⟨1, 1⟩, 5, 0⟩], 1, 2, 0, true⟩ TNode.nil TNode.nil) 5
      = none := by
  decide

/-- C3 (amended): in `tcache_find_next_internal` a request above the
chunk's `blkno_max` descends strictly right with NO fallback (`none` when
the right child is absent); the fallback role sits on the OTHER descent:
when the request is below `blkno_min` and a left child exists, the node
itself is returned whenever the left-subtree search yields nothing — and
symmetrically for `tcache_find_prev_internal` (left descent bare, fallback
on the right descent).  The gap between sibling ranges is thus served by
the ancestor on whose low/high side the gap lies. -/
theorem C3_find_lookup_amended (tcs : TCacheColumnStore) (l r : TNode)
    (blkno : Nat) (hne : ¬ tcs.rows.length = 0) :
    (tcs.blkno_max < blkno →
      tcache_find_next_internal (TNode.node tcs l r) blkno
        = if r.isNil then none else tcache_find_next_internal r blkno) ∧
    (¬ tcs.blkno_max < blkno → l.isNil = false → blkno < tcs.blkno_min →
      tcache_find_next_internal l blkno = none →
      tcache_find_next_internal (TNode.node tcs l r) blkno
        = some (TNode.node tcs l r)) ∧
    (blkno < tcs.blkno_min →
      tcache_find_prev_internal (TNode.node tcs l r) blkno
        = if l.isNil then none else tcache_find_prev_internal l blkno) ∧
    (¬ blkno < tcs.blkno_min → r.isNil = false → tcs.blkno_max < blkno →
      tcache_find_prev_internal r blkno = none →
      tcache_find_prev_internal (TNode.node tcs l r) blkno
        = some (TNode.node tcs l r)) := by
  refine ⟨?_, ?_, ?_, ?_⟩
  · intro h
    rw [tcache_find_next_internal, if_neg hne, if_pos h]
  · intro h1 h2 h3 h4
    rw [tcache_find_next_internal, if_neg hne, if_neg h1]
    have hcond : (l.isNil || decide (tcs.blkno_min ≤ blkno)) = false := by
      rw [h2]
      simpa using h3
    rw [if_neg (by simp [hcond] : ¬ (l.isNil || decide (tcs.blkno_min ≤ blkno)) = true), h4]
  · intro h
    rw [tcache_find_prev_internal, if_neg hne, if_pos h]
  · intro h1 h2 h3 h4
    rw [tcache_find_prev_internal, if_neg hne, if_neg h1]
    have hcond : (r.isNil || decide (blkno ≤ tcs.blkno_max)) = false := by
      rw [h2]
      simpa using h3
    rw [if_neg (by simp [hcond] : ¬ (r.isNil || decide (blkno ≤ tcs.blkno_max)) = true), h4]

/-- C3 witness: the amended lookup theorem applied to a node over blocks
`[5, 6]` with a left child over `[1, 2]` and the request 3 in the gap. -/
theorem C3_find_lookup_amended_witness :
    ((6 : Nat) < 3 →
      tcache_find_next_internal
        (TNode.node ⟨[⟨⟨5, 1⟩, 5, 0⟩], 5, 6, 0, true⟩
          (TNode.node ⟨[⟨⟨1, 1⟩, 5, 1⟩], 1, 2, 0, true⟩ TNode.nil TNode.nil)
          TNode.nil) 3
        = if (TNode.nil : TNode).isNil then none
          else tcache_find_next_internal TNode.nil 3) ∧
    (¬ (6 : Nat) < 3 →
      (TNode.node ⟨[⟨⟨1, 1⟩, 5, 1⟩], 1, 2, 0, true⟩ TNode.nil
        TNode.nil).isNil = false →
      (3 : Nat) < 5 →
      tcache_find_next_internal
        (TNode.node ⟨[⟨⟨1, 1⟩, 5, 1⟩], 1, 2, 0, true⟩ TNode.nil TNode.nil) 3
        = none →
      tcache_find_next_internal
        (TNode.node ⟨[⟨⟨5, 1⟩, 5, 0⟩], 5, 6, 0, true⟩
          (TNode.node ⟨[⟨⟨1, 1⟩, 5, 1⟩], 1, 2, 0, true⟩ TNode.nil TNode.nil)
          TNode.nil) 3
        = some (TNode.node ⟨[⟨⟨5, 1⟩, 5, 0⟩], 5, 6, 0, true⟩
            (TNode.node ⟨[⟨⟨1, 1⟩, 5, 1⟩], 1, 2, 0, true⟩ TNode.nil TNode.nil)
            TNode.nil)) ∧
    ((3 : Nat) < 5 →
      tcache_find_prev_internal
        (TNode.node ⟨[⟨⟨5, 1⟩, 5, 0⟩], 5, 6, 0, true⟩
          (TNode.node ⟨[⟨⟨1, 1⟩, 5, 1⟩], 1, 2, 0, true⟩ TNode.nil TNode.nil)
          TNode.nil) 3
        = if (TNode.node ⟨[⟨⟨1, 1⟩, 5, 1⟩], 1, 2, 0, true⟩ TNode.nil
            TNode.nil).isNil then none
          else tcache_find_prev_internal
            (TNode.node ⟨[⟨⟨1, 1⟩, 5, 1⟩], 1, 2, 0, true⟩ TNode.nil TNode.nil)
            3) ∧
    (¬ (3 : Nat) < 5 →
      (TNode.nil : TNode).isNil = false →
      (6 : Nat) < 3 →
      tcache_find_prev_internal TNode.nil 3 = none →
      tcache_find_prev_internal
        (TNode.node ⟨[⟨⟨5, 1⟩, 5, 0⟩], 5, 6, 0, true⟩
          (TNode.node ⟨[⟨⟨1, 1⟩, 5, 1⟩], 1, 2, 0, true⟩ TNode.nil TNode.nil)
          TNode.nil) 3
        = some (TNode.node ⟨[⟨⟨5, 1⟩, 5, 0⟩], 5, 6, 0, true⟩
            (TNode.node ⟨[⟨⟨1, 1⟩, 5, 1⟩], 1, 2, 0, true⟩ TNode.nil TNode.nil)
            TNode.nil)) :=
  C3_find_lookup_amended ⟨[⟨⟨5, 1⟩, 5, 0⟩], 5, 6, 0, true⟩
    (TNode.node ⟨[⟨⟨1, 1⟩, 5, 1⟩], 1, 2, 0, true⟩ TNode.nil TNode.nil)
    TNode.nil 3 (by decide)

/-- C9 counterexample: `pgstrom_queue_shutdown` performs NO
condition-variable call at all — its call list is empty, in particular it
contains no broadcast, refuting the claim that shutdown wakes all waiters
by broadcasting (the flag itself is set). -/
theorem C9_shutdown_no_broadcast_counterexample :
    (pgstrom_queue_shutdown ⟨[], false⟩).2 = [] ∧
    CondEvent.broadcast ∉ (pgstrom_queue_shutdown ⟨[], false⟩).2 ∧
    (pgstrom_queue_shutdown ⟨[], false⟩).1.is_shutdown = true := by
  decide

theorem applyQueueOp_keeps_shutdown (q : StromQueue) (op : QueueOp)
    (h : q.is_shutdown = true) : (applyQueueOp q op).is_shutdown = true := by
  cases op with
  | enqueue c => simp [applyQueueOp, pgstrom_queue_enqueue, h]
  | tryDequeue =>
    cases hq : q.items with
    | nil => simp [applyQueueOp, pgstrom_queue_try_dequeue, hq, h]
    | cons x xs => simp [applyQueueOp, pgstrom_queue_try_dequeue, hq, h]
  | shutdown => simp [applyQueueOp, pgstrom_queue_shutdown]

/-- C9 (amended): once `is_shutdown` is set it survives any sequence of
queue operations (the flag is one-way), and an enqueue on a shut-down queue
fails with `false` without adding the item (it still signals once); but the
shutdown itself performs no condition-variable call — neither signal nor
broadcast — so blocked dequeuers are woken only by later enqueue signals or
their own timeout. -/
theorem C9_queue_shutdown_amended (q : StromQueue) (ops : List QueueOp)
    (c : Nat) (h : q.is_shutdown = true) :
    (applyQueueOps q ops).is_shutdown = true ∧
    pgstrom_queue_enqueue q c = (q, false, [CondEvent.signal]) ∧
    (∀ q' : StromQueue, (pgstrom_queue_shutdown q').1.is_shutdown = true ∧
      (pgstrom_queue_shutdown q').2 = []) := by
  refine ⟨?_, ?_, ?_⟩
  · induction ops generalizing q with
    | nil => simpa [applyQueueOps] using h
    | cons op tl ih =>
      rw [applyQueueOps, List.foldl_cons]
      exact ih _ (applyQueueOp_keeps_shutdown q op h)
  · cases q with
    | mk items flag =>
      cases flag with
      | false => simp at h
      | true => simp [pgstrom_queue_enqueue]
  · intro q'
    simp [pgstrom_queue_shutdown]

/-- C9 witness: the amended queue theorem applied to a shut-down queue with
one leftover item, a three-operation suffix and the enqueue of item 9. -/
theorem C9_queue_shutdown_amended_witness :
    (applyQueueOps ⟨[3], true⟩
      [QueueOp.enqueue 4, QueueOp.tryDequeue, QueueOp.shutdown]).is_shutdown
      = true ∧
    pgstrom_queue_enqueue ⟨[3], true⟩ 9
      = (⟨[3], true⟩, false, [CondEvent.signal]) ∧
    (∀ q' : StromQueue, (pgstrom_queue_shutdown q').1.is_shutdown = true ∧
      (pgstrom_queue_shutdown q').2 = []) :=
  C9_queue_shutdown_amended ⟨[3], true⟩
    [QueueOp.enqueue 4, QueueOp.tryDequeue, QueueOp.shutdown] 9 (by decide)

theorem ipLt_irrefl (a : ItemPtr) : ipLt a a = false := by
  rw [ipLt_false_iff]
  omega

theorem ipSorted_getD_mono (l : List ItemPtr) (hs : ipSorted l) {k1 k2 : Nat}
    (h12 : k1 ≤ k2) (h2 : k2 < l.length) :
    ipLt (l.getD k2 ⟨0, 0⟩) (l.getD k1 ⟨0, 0⟩) = false := by
  rcases Nat.eq_or_lt_of_le h12 with rfl | hlt
  · exact ipLt_irrefl _
  · have h1 : k1 < l.length := lt_trans hlt h2
    rw [ipSorted, List.pairwise_iff_get] at hs
    have := hs ⟨k1, h1⟩ ⟨k2, h2⟩ hlt
    simpa [List.get_eq_getElem, List.getD_eq_getElem?_getD,
      List.getElem?_eq_getElem h1, List.getElem?_eq_getElem h2] using this

/-- First-hit characterization of `List.findIdx?` through `getD`,
generalized over the start-index accumulator. -/
theorem findIdx?_eq_some_of (l : List ItemPtr) (p : ItemPtr → Bool) (j i : Nat)
    (hj : j < l.length) (hpj : p (l.getD j ⟨0, 0⟩) = true)
    (hlt : ∀ k, k < j → p (l.getD k ⟨0, 0⟩) = false) :
    List.findIdx? p l i = some (i + j) := by
  induction l generalizing j i with
  | nil => simp at hj
  | cons x xs ih =>
    rw [List.findIdx?_cons]
    cases j with
    | zero =>
      simp only [List.getD_cons_zero] at hpj
      rw [hpj]
      simp
    | succ j' =>
      have hx : p x = false := by
        have := hlt 0 (Nat.succ_pos _)
        simpa using this
      rw [hx]
      simp only [Bool.false_eq_true, if_false]
      have hxs : List.findIdx? p xs (i + 1) = some ((i + 1) + j') := by
        refine ih j' (i + 1) (by simpa using hj) (by simpa using hpj) ?_
        intro k hk
        have := hlt (k + 1) (Nat.succ_lt_succ hk)
        simpa using this
      rw [hxs]
      congr 1
      omega

theorem findIdx?_eq_none_of (l : List ItemPtr) (p : ItemPtr → Bool) (i : Nat)
    (h : ∀ k, k < l.length → p (l.getD k ⟨0, 0⟩) = false) :
    List.findIdx? p l i = none := by
  induction l generalizing i with
  | nil => rfl
  | cons x xs ih =>
    rw [List.findIdx?_cons]
    have hx : p x = false := by simpa using h 0 (Nat.succ_pos _)
    rw [hx]
    simp only [Bool.false_eq_true, if_false]
    refine ih (i + 1) ?_
    intro k hk
    have := h (k + 1) (Nat.succ_lt_succ hk)
    simpa using this

theorem ipGe_of_ipGe_of_not_lt {a b t : ItemPtr} (h1 : ipGe a t = true)
    (h2 : ipLt b a = false) : ipGe b t = true := by
  simp only [ipGe, Bool.not_eq_true'] at h1 ⊢
  exact ipLt_false_trans h1 h2

theorem bsearchGo_spec (ctids : List ItemPtr) (target : ItemPtr)
    (hs : ipSorted ctids) :
    ∀ fuel i_min i_max, i_max ≤ ctids.length → i_min ≤ i_max →
      i_max - i_min ≤ fuel →
      (∀ k, k < i_min → ipGe (ctids.getD k ⟨0, 0⟩) target = false) →
      (∀ k, i_max ≤ k → k < ctids.length →
        ipGe (ctids.getD k ⟨0, 0⟩) target = true) →
      (i_min ≤ bsearchGo fuel ctids target i_min i_max ∧
        bsearchGo fuel ctids target i_min i_max ≤ i_max ∧
        (∀ k, k < bsearchGo fuel ctids target i_min i_max →
          ipGe (ctids.getD k ⟨0, 0⟩) target = false) ∧
        (∀ k, bsearchGo fuel ctids target i_min i_max ≤ k →
          k < ctids.length → ipGe (ctids.getD k ⟨0, 0⟩) target = true)) := by
  intro fuel
  induction fuel with
  | zero =>
    intro i_min i_max hmaxn hminmax hfuel hlow hhigh
    have heq : i_min = i_max := by omega
    simp only [bsearchGo]
    exact ⟨le_refl _, by omega, hlow, fun k hk hkn => hhigh k (by omega) hkn⟩
  | succ fuel ih =>
    intro i_min i_max hmaxn hminmax hfuel hlow hhigh
    by_cases hlt : i_min < i_max
    · have hunfold : bsearchGo (fuel + 1) ctids target i_min i_max
          = if ipGe (ctids.getD ((i_min + i_max) / 2) ⟨0, 0⟩) target then
              bsearchGo fuel ctids target i_min ((i_min + i_max) / 2)
            else
              bsearchGo fuel ctids target ((i_min + i_max) / 2 + 1) i_max := by
        simp only [bsearchGo, if_pos hlt]
      have hmid1 : i_min ≤ (i_min + i_max) / 2 := by omega
      have hmid2 : (i_min + i_max) / 2 < i_max := by omega
      by_cases hp : ipGe (ctids.getD ((i_min + i_max) / 2) ⟨0, 0⟩) target = true
      · rw [hunfold, if_pos hp]
        have hhigh2 : ∀ k, (i_min + i_max) / 2 ≤ k → k < ctids.length →
            ipGe (ctids.getD k ⟨0, 0⟩) target = true := by
          intro k hk hkn
          exact ipGe_of_ipGe_of_not_lt hp (ipSorted_getD_mono ctids hs hk hkn)
        obtain ⟨ha, hb, hc, hd⟩ := ih i_min ((i_min + i_max) / 2) (by omega)
          hmid1 (by omega) hlow hhigh2
        exact ⟨ha, by omega, hc, hd⟩
      · rw [hunfold, if_neg hp]
        have hlow2 : ∀ k, k < (i_min + i_max) / 2 + 1 →
            ipGe (ctids.getD k ⟨0, 0⟩) target = false := by
          intro k hk
          by_cases hki : k < i_min
          · exact hlow k hki
          · rw [← Bool.not_eq_true]
            intro hkq
            refine hp ?_
            refine ipGe_of_ipGe_of_not_lt hkq
              (ipSorted_getD_mono ctids hs (by omega) (by omega))
        obtain ⟨ha, hb, hc, hd⟩ := ih ((i_min + i_max) / 2 + 1) i_max (by omega)
          (by omega) (by omega) hlow2 hhigh
        exact ⟨by omega, hb, hc, hd⟩
    · have heq : i_min = i_max := by omega
      simp only [bsearchGo, if_neg hlt]
      exact ⟨le_refl _, by omega, hlow, fun k hk hkn => hhigh k (by omega) hkn⟩

theorem find_next_record_sorted_eq (ctids : List ItemPtr) (target : ItemPtr)
    (hs : ipSorted ctids) :
    find_next_record_sorted ctids target = firstGeIdx ctids target := by
  obtain ⟨h1, h2, h3, h4⟩ := bsearchGo_spec ctids target hs ctids.length 0
    ctids.length (le_refl _) (Nat.zero_le _) (by omega)
    (fun k hk => absurd hk (Nat.not_lt_zero k))
    (fun k hk hkn => absurd hkn (by omega))
  rw [find_next_record_sorted, firstGeIdx]
  by_cases hres : bsearchGo ctids.length ctids target 0 ctids.length <
      ctids.length
  · rw [if_pos hres]
    rw [findIdx?_eq_some_of ctids _
      (bsearchGo ctids.length ctids target 0 ctids.length) 0 hres
      (h4 _ (le_refl _) hres) h3]
    simp
  · rw [if_neg hres]
    rw [findIdx?_eq_none_of ctids _ 0 (fun k hk => h3 k (by omega))]

theorem scan_no_update (target : ItemPtr) (cs : List ItemPtr) :
    ∀ (ipCur : ItemPtr) (idx : Int) (i : Nat),
      (∀ c ∈ cs, ipLt c ipCur = false) →
      cs.foldl (fun (st : ItemPtr × Int × Nat) c =>
          if ipGe c target && ipLt c st.1 then (c, (st.2.2 : Int), st.2.2 + 1)
          else (st.1, st.2.1, st.2.2 + 1)) (ipCur, idx, i)
        = (ipCur, idx, i + cs.length) := by
  induction cs with
  | nil => intro ipCur idx i _; simp
  | cons c cs' ih =>
    intro ipCur idx i hno
    have hc : ipLt c ipCur = false := hno c (List.mem_cons_self _ _)
    rw [List.foldl_cons]
    simp only [hc, Bool.and_false, Bool.false_eq_true, if_false]
    rw [ih ipCur idx (i + 1) (fun x hx => hno x (List.mem_cons_of_mem _ hx))]
    rw [List.length_cons]
    have h3 : i + 1 + cs'.length = i + (cs'.length + 1) := by omega
    rw [h3]

theorem scan_spec (target : ItemPtr) (cs : List ItemPtr) :
    ∀ (ipCur : ItemPtr) (idx : Int) (i : Nat),
      ipSorted cs →
      (∀ c ∈ cs, ipLt c ipCur = true) →
      (cs.foldl (fun (st : ItemPtr × Int × Nat) c =>
          if ipGe c target && ipLt c st.1 then (c, (st.2.2 : Int), st.2.2 + 1)
          else (st.1, st.2.1, st.2.2 + 1)) (ipCur, idx, i)).2.1
        = match List.findIdx? (fun c => ipGe c target) cs with
          | some j => ((i + j : Nat) : Int)
          | none => idx := by
  induction cs with
  | nil => intro ipCur idx i _ _; simp
  | cons c cs' ih =>
    intro ipCur idx i hsorted hbelow
    have hrel : ∀ x ∈ cs', ipLt x c = false :=
      (List.pairwise_cons.mp hsorted).1
    have hsorted' : ipSorted cs' := (List.pairwise_cons.mp hsorted).2
    have hc : ipLt c ipCur = true := hbelow c (List.mem_cons_self _ _)
    rw [List.foldl_cons, List.findIdx?_cons]
    by_cases hq : ipGe c target = true
    · simp only [hq, hc, Bool.and_self, if_true]
      rw [scan_no_update target cs' c (i : Int) (i + 1) hrel]
      simp
    · have hq' : ipGe c target = false := by
        rw [← Bool.not_eq_true]; exact hq
      simp only [hq', Bool.false_and, Bool.false_eq_true, if_false]
      rw [ih ipCur idx (i + 1) hsorted'
        (fun x hx => hbelow x (List.mem_cons_of_mem _ hx))]
      rw [List.findIdx?_succ]
      cases List.findIdx? (fun c => ipGe c target) cs' 0 with
      | none => simp
      | some j =>
        simp only [Option.map_some]
        show ((i + 1 + j : Nat) : Int) = ((i + (j + 1) : Nat) : Int)
        congr 1
        omega

theorem find_next_record_unsorted_eq (ctids : List ItemPtr) (target : ItemPtr)
    (hs : ipSorted ctids)
    (hbelow : ∀ c ∈ ctids, ipLt c ipSentinel = true) :
    find_next_record_unsorted ctids target = firstGeIdx ctids target := by
  rw [find_next_record_unsorted, firstGeIdx]
  rw [scan_spec target ctids ⟨MaxBlockNumber, MaxOffsetNumber⟩ (-1) 0 hs
    hbelow]
  cases List.findIdx? (fun c => ipGe c target) ctids 0 with
  | none => rfl
  | some j => simp

/-- C8 counterexample: on the (trivially non-decreasing) one-row array whose
ctid is exactly `(MaxBlockNumber, MaxOffsetNumber)` — the start value of the
linear scan's `ip_cur` — the sorted branch finds index 0, but the unsorted
branch returns `-1`: the row never satisfies `ItemPointerCompare(ctid,
ip_cur) < 0`, so the branches disagree and the linear branch misses the
qualifying row. -/
theorem C8_sentinel_counterexample :
    ipSorted [ipSentinel] ∧
    find_next_record_sorted [ipSentinel] ipSentinel = 0 ∧
    find_next_record_unsorted [ipSentinel] ipSentinel = -1 := by
  decide

/-- C8 (amended): for every ctid array in non-decreasing item-pointer order
whose entries all compare strictly below `(MaxBlockNumber,
MaxOffsetNumber)` — true of every real heap tuple, whose offset is bounded
by `MaxHeapTuplesPerPage` — and every target, the binary-search branch and
the linear-scan branch of `tcache_find_next_record` agree, and both return
the index of the first (equivalently, smallest) ctid comparing greater than
or equal to the target, or `-1` when no such row exists. -/
theorem C8_find_next_branches_amended (ctids : List ItemPtr)
    (target : ItemPtr) (hs : ipSorted ctids)
    (hbelow : ∀ c ∈ ctids, ipLt c ipSentinel = true) :
    find_next_record_sorted ctids target
      = find_next_record_unsorted ctids target ∧
    find_next_record_sorted ctids target = firstGeIdx ctids target := by
  have h1 := find_next_record_sorted_eq ctids target hs
  have h2 := find_next_record_unsorted_eq ctids target hs hbelow
  exact ⟨h1.trans h2.symm, h1⟩

/-- C8 witness: the amended branch-equivalence theorem applied to a
three-row array over two blocks with a target between two stored ctids. -/
theorem C8_find_next_branches_amended_witness :
    (find_next_record_sorted [⟨1, 1⟩, ⟨1, 3⟩, ⟨2, 1⟩] ⟨1, 2⟩
      = find_next_record_unsorted [⟨1, 1⟩, ⟨1, 3⟩, ⟨2, 1⟩] ⟨1, 2⟩) ∧
    find_next_record_sorted [⟨1, 1⟩, ⟨1, 3⟩, ⟨2, 1⟩] ⟨1, 2⟩
      = firstGeIdx [⟨1, 1⟩, ⟨1, 3⟩, ⟨2, 1⟩] ⟨1, 2⟩ :=
  C8_find_next_branches_amended [⟨1, 1⟩, ⟨1, 3⟩, ⟨2, 1⟩] ⟨1, 2⟩
    (by decide) (by decide)
